import Mathlib

/-!
# Checkpoint registry (`src/checkpoints/checkpoints.cpp`)

A shallow embedding of `cryptonote::checkpoints`: the two ordered tables
`m_points` (height to block hash) and `m_difficulty_points` (height to cumulative
difficulty), the insertion routine `add_checkpoint` and the read queries built on
them.

Conventions of the embedding.

* `std::map<uint64_t, V>` is a list of `(key, value)` entries kept in strictly
  ascending key order; an iterator is an index into that list, `begin()` is index
  `0` and `end()` is the length.
* A height (`uint64_t`) is a natural number. The code only compares heights, it
  never does arithmetic on them, so no wrap-around is involved.
* A function with a reference out-parameter returns the out-parameter next to its
  result; a member function that mutates the registry returns the new registry
  next to its result.
* The two text decoders used by `add_checkpoint` live outside this source file.
  They are passed in as a `decoders` record, and everything proved below holds for
  every such record. `reference_decoders` is one concrete record, written after
  the specification, which is used to evaluate the code on concrete texts.
-/

namespace cryptonote

/-! ## Value types -/

/-- Modelled from the spec: the type `crypto::hash`, declared outside this source
file. The specification calls it a "256-bit digest"; the code only copies such
values and compares them for equality. -/
abbrev hash := Fin (2 ^ 256)

/-- Modelled from the spec: the type `difficulty_type`, declared outside this
source file. The specification calls it an "arbitrary-precision unsigned integer";
the code only copies such values and compares them for equality. -/
abbrev difficulty_type := Nat

/-! ## `std::map<uint64_t, V>` -/

/-- Value stored under key `k` in a list of entries, if any. -/
def lookup {V : Type} (k : Nat) : List (Nat × V) → Option V
  | [] => none
  | (k', v) :: t => if k = k' then some v else lookup k t

/-- Entries after `m[k] = v`: the value under an existing key is replaced, a new
key is put at its place in the key order. -/
def assign {V : Type} (k : Nat) (v : V) : List (Nat × V) → List (Nat × V)
  | [] => [(k, v)]
  | (k', v') :: t =>
    if k < k' then (k, v) :: (k', v') :: t
    else if k = k' then (k, v) :: t
    else (k', v') :: assign k v t

/-- Every key of `l` is above `k`. -/
def above {V : Type} (k : Nat) (l : List (Nat × V)) : Prop := ∀ e ∈ l, k < e.1

theorem above_assign {V : Type} (b k : Nat) (v : V) (l : List (Nat × V))
    (hb : b < k) (hl : above b l) : above b (assign k v l) := by
  induction l with
  | nil =>
    intro e he
    simp [assign] at he
    subst he
    exact hb
  | cons x t ih =>
    obtain ⟨k', v'⟩ := x
    have hx : b < k' := hl (k', v') (by simp)
    have ht : above b t := fun e he => hl e (by simp [he])
    intro e he
    unfold assign at he
    split_ifs at he with h1 h2
    · rcases List.mem_cons.1 he with rfl | he
      · exact hb
      · exact hl e he
    · rcases List.mem_cons.1 he with rfl | he
      · exact hb
      · exact ht e he
    · rcases List.mem_cons.1 he with rfl | he
      · exact hx
      · exact ih ht e he

theorem pairwise_assign {V : Type} (k : Nat) (v : V) (l : List (Nat × V))
    (hl : l.Pairwise (fun a b => a.1 < b.1)) :
    (assign k v l).Pairwise (fun a b => a.1 < b.1) := by
  induction l with
  | nil => simp [assign]
  | cons x t ih =>
    obtain ⟨k', v'⟩ := x
    rw [List.pairwise_cons] at hl
    obtain ⟨hx, ht⟩ := hl
    unfold assign
    split_ifs with h1 h2
    · refine List.pairwise_cons.2 ⟨?_, List.pairwise_cons.2 ⟨hx, ht⟩⟩
      intro e he
      rcases List.mem_cons.1 he with rfl | he
      · exact h1
      · exact lt_trans h1 (hx e he)
    · subst h2
      exact List.pairwise_cons.2 ⟨hx, ht⟩
    · refine List.pairwise_cons.2 ⟨?_, ih ht⟩
      have hk : k' < k := by omega
      exact above_assign k' k v t hk hx

/-- The container `std::map<uint64_t, V>`: entries in strictly ascending key
order, hence at most one entry per key. -/
structure std_map (V : Type) where
  /-- The entries, as an in-order traversal from `begin()` to `end()` yields them. -/
  entries : List (Nat × V)
  /-- The keys are strictly ascending. -/
  ordered : entries.Pairwise (fun a b => a.1 < b.1)

namespace std_map

variable {V : Type}

/-- A default-constructed map. -/
def nil : std_map V := ⟨[], List.Pairwise.nil⟩

/-- The member `find(k)`, read as the value found (`none` for `end()`). -/
def find (m : std_map V) (k : Nat) : Option V := lookup k m.entries

/-- The member `count(k)`: `1` when the key is present, `0` otherwise. -/
def count (m : std_map V) (k : Nat) : Nat := if (m.find k).isSome then 1 else 0

/-- The member `empty()`. -/
def empty (m : std_map V) : Bool := m.entries.isEmpty

/-- The statement `m[k] = v`. -/
def set (m : std_map V) (k : Nat) (v : V) : std_map V :=
  ⟨assign k v m.entries, pairwise_assign k v m.entries m.ordered⟩

/-- The member `upper_bound(k)`: the position of the first entry whose key is
greater than `k`, or `end()` when there is none. -/
def upper_bound (m : std_map V) (k : Nat) : Nat :=
  m.entries.findIdx (fun e => decide (k < e.1))

/-- The key of the last entry, `(--end())->first` and `rbegin()->first`. -/
def back_key (m : std_map V) : Option Nat := m.entries.getLast?.map Prod.fst

theorem ext_entries {a b : std_map V} (h : a.entries = b.entries) : a = b := by
  cases a; cases b; cases h; rfl

instance [DecidableEq V] : DecidableEq (std_map V) := fun a b =>
  if h : a.entries = b.entries then isTrue (ext_entries h)
  else isFalse (fun e => h (by rw [e]))

end std_map

/-! ## Text decoders -/

/-- Modelled from the spec: the two text decoders that `add_checkpoint` calls and
that are defined outside this source file.

* `parse_tpod_from_hex_string` is `epee::string_tools::parse_tpod_from_hex_string`
  at type `crypto::hash`: "Decode `hash_text` into a 256-bit digest", `none` being
  the decoding failure.
* `difficulty_from_string` is the converting constructor
  `difficulty_type difficulty(difficulty_str)`: "parse as an arbitrary-precision
  unsigned integer", `none` being the exception it throws on a parse failure. -/
structure decoders where
  /-- Decode a hash text. -/
  parse_tpod_from_hex_string : String → Option hash
  /-- Decode a difficulty text. -/
  difficulty_from_string : String → Option difficulty_type

/-- Value of one hexadecimal digit. -/
def hex_value (ch : Char) : Option Nat :=
  let n := ch.toNat
  if 48 ≤ n ∧ n ≤ 57 then some (n - 48)
  else if 97 ≤ n ∧ n ≤ 102 then some (n - 87)
  else if 65 ≤ n ∧ n ≤ 70 then some (n - 55)
  else none

/-- Value of a run of hexadecimal digits, most significant digit first. -/
def hex_fold (acc : Nat) : List Char → Option Nat
  | [] => some acc
  | ch :: t =>
    match hex_value ch with
    | some v => hex_fold (16 * acc + v) t
    | none => none

/-- Value of a run of decimal digits, most significant digit first. -/
def dec_fold (acc : Nat) : List Char → Option Nat
  | [] => some acc
  | ch :: t =>
    if 48 ≤ ch.toNat ∧ ch.toNat ≤ 57 then dec_fold (10 * acc + (ch.toNat - 48)) t
    else none

/-- Modelled from the spec: a hash text is "a hash encoded as a fixed-length
hexadecimal string", and decoding fails on "wrong length, non-hex characters".
A 256-bit digest takes 64 hexadecimal digits. -/
def reference_parse_hash (s : String) : Option hash :=
  if s.toList.length = 64 then
    match hex_fold 0 s.toList with
    | some n => if hn : n < 2 ^ 256 then some ⟨n, hn⟩ else none
    | none => none
  else none

/-- Modelled from the spec: a difficulty text is "a non-negative-integer string",
parsed "as an arbitrary-precision unsigned integer": a non-empty run of decimal
digits. -/
def reference_parse_difficulty (s : String) : Option difficulty_type :=
  if s.toList = [] then none else dec_fold 0 s.toList

/-- Modelled from the spec: one concrete pair of decoders, used to run the code on
concrete texts. -/
def reference_decoders : decoders := ⟨reference_parse_hash, reference_parse_difficulty⟩

/-! ## The registry -/

/-- The data members of `class checkpoints`. -/
structure checkpoints where
  /-- The table `m_points`: height to pinned block hash. -/
  m_points : std_map hash
  /-- The table `m_difficulty_points`: height to pinned cumulative difficulty. -/
  m_difficulty_points : std_map difficulty_type
deriving DecidableEq

/-- The constructor `checkpoints::checkpoints()`: both tables empty. -/
def checkpoints.init : checkpoints := ⟨std_map.nil, std_map.nil⟩

/-- The three-argument `checkpoints::check_block`. The first component is the
returned boolean, the second is the value written to `is_a_checkpoint`. -/
def check_block (c : checkpoints) (height : Nat) (h : hash) : Bool × Bool :=
  let it := c.m_points.find height
  let is_a_checkpoint := it.isSome
  if !is_a_checkpoint then (true, is_a_checkpoint)
  else
    match it with
    | some second => if second = h then (true, is_a_checkpoint) else (false, is_a_checkpoint)
    | none => (true, is_a_checkpoint)

/-- The two-argument `checkpoints::check_block`, which passes a local `ignored`
for the out-parameter and returns the result of the three-argument overload. -/
def check_block2 (c : checkpoints) (height : Nat) (h : hash) : Bool :=
  (check_block c height h).1

/-- The member `checkpoints::add_checkpoint`. The first component is the returned
boolean, the second the registry after the call.

`CHECK_AND_ASSERT_MES(cond, false, msg)` returns `false` on the spot when `cond`
fails. The read `m_points[height]` happens only under `m_points.count(height)`, so
it yields the stored value and inserts nothing; the comparison with it is written
as a comparison of `find height` with `some h`. -/
def add_checkpoint (D : decoders) (c : checkpoints) (height : Nat)
    (hash_str difficulty_str : String) : Bool × checkpoints :=
  match D.parse_tpod_from_hex_string hash_str with
  | none => (false, c)
  | some h =>
    -- return false if adding at a height we already have AND the hash is different
    if c.m_points.count height ≠ 0 ∧ ¬ (c.m_points.find height = some h) then (false, c)
    else
      let c1 : checkpoints := ⟨c.m_points.set height h, c.m_difficulty_points⟩
      if !difficulty_str.isEmpty then
        match D.difficulty_from_string difficulty_str with
        | none => (false, c1)
        | some difficulty =>
          if c1.m_difficulty_points.count height ≠ 0 ∧
              ¬ (c1.m_difficulty_points.find height = some difficulty) then (false, c1)
          else (true, ⟨c1.m_points, c1.m_difficulty_points.set height difficulty⟩)
      else (true, c1)

/-- The member `checkpoints::is_in_checkpoint_zone`. -/
def is_in_checkpoint_zone (c : checkpoints) (height : Nat) : Bool :=
  !c.m_points.empty &&
    (match c.m_points.back_key with
     | some first => decide (height ≤ first)
     | none => false)

/-- The member `checkpoints::is_alternative_block_allowed`. The iterator `it` is a
position in `m_points`; `--it` is the position before it. -/
def is_alternative_block_allowed (c : checkpoints) (blockchain_height block_height : Nat) :
    Bool :=
  if 0 = block_height then false
  else
    let it := c.m_points.upper_bound blockchain_height
    -- Is blockchain_height before the first checkpoint?
    if it = 0 then true
    else
      match c.m_points.entries[it - 1]? with
      | some e =>
        let checkpoint_height := e.1
        decide (checkpoint_height < block_height)
      | none => false

/-- The body of `is_alternative_block_allowed` after its test of `block_height`,
as a function of the entries of `m_points`. -/
def allowed_above {V : Type} (l : List (Nat × V)) (blockchain_height block_height : Nat) :
    Bool :=
  if l.findIdx (fun e => decide (blockchain_height < e.1)) = 0 then true
  else
    match l[l.findIdx (fun e => decide (blockchain_height < e.1)) - 1]? with
    | some e => decide (e.1 < block_height)
    | none => false

/-- The member `checkpoints::get_max_height`. -/
def get_max_height (c : checkpoints) : Nat :=
  if c.m_points.empty then 0
  else
    match c.m_points.back_key with
    | some first => first
    | none => 0

/-- The member `checkpoints::get_points`. -/
def get_points (c : checkpoints) : std_map hash := c.m_points

/-- The member `checkpoints::get_difficulty_points`. -/
def get_difficulty_points (c : checkpoints) : std_map difficulty_type := c.m_difficulty_points

/-- The loop of `checkpoints::check_for_conflicts` over the entries of
`other.get_points()` still to be visited. The read `m_points.at(pt.first)` happens
only under `m_points.count(pt.first)`, so it yields the stored value; the
comparison with it is written as a comparison of `find` with `some pt.second`. -/
def check_for_conflicts_loop (c : checkpoints) : List (Nat × hash) → Bool
  | [] => true
  | pt :: rest =>
    if c.m_points.count pt.1 ≠ 0 ∧ ¬ (c.m_points.find pt.1 = some pt.2) then false
    else check_for_conflicts_loop c rest

/-- The member `checkpoints::check_for_conflicts`. -/
def check_for_conflicts (c other : checkpoints) : Bool :=
  check_for_conflicts_loop c (get_points other).entries

/-! ## The header macros and the loaders -/

/-- Modelled from the spec: the macro `ADD_CHECKPOINT2(h, hash, difficulty)` of the
class header, which is not part of this source file. It wraps a call of
`add_checkpoint` ("inserted via `add_checkpoint`"). What it does when that call
returns false cannot be read off this file, so it is the flag `abort_on_failure`:
with `false` the statement after the macro runs next (the specification's reading:
rejecting a record is "never fatal to the batch loader"); with `true` the enclosing
function returns false on the spot. The first component is `none` when control
goes on to the next statement and `some r` when the enclosing function returns
`r`. -/
def ADD_CHECKPOINT2 (abort_on_failure : Bool) (D : decoders) (c : checkpoints) (h : Nat)
    (hash_text difficulty : String) : Option Bool × checkpoints :=
  let r := add_checkpoint D c h hash_text difficulty
  if abort_on_failure && !r.1 then (some false, r.2) else (none, r.2)

/-- Modelled from the spec: the macro `ADD_CHECKPOINT(h, hash)` of the class header,
which is not part of this source file: `ADD_CHECKPOINT2` with the difficulty text
left at its default, the empty text (`difficulty_text = empty`). -/
def ADD_CHECKPOINT (abort_on_failure : Bool) (D : decoders) (c : checkpoints) (h : Nat)
    (hash_text : String) : Option Bool × checkpoints :=
  ADD_CHECKPOINT2 abort_on_failure D c h hash_text ""

/-- Modelled from the spec: the enumeration `network_type`, declared outside this
source file: "an enumerated value {primary, test, staging}". -/
inductive network_type where
  | MAINNET
  | TESTNET
  | STAGENET
deriving DecidableEq

/-- The `ADD_CHECKPOINT2` lines of `init_default_checkpoints` for the test network,
in source order: height, hash text, difficulty text. -/
def testnet_checkpoints : List (Nat × String × String) :=
  [(0, "d0ae70ae5f35b27b3a4b68ae4f78eeca9989174eebe8a1e55cd139fe9b797223", "1"),
   (50000, "71f59410da0bf670c6f24c91f0f940c5c3541a150a38f5fa7f9c520a230158d9", "947184082"),
   (100000, "5e321820d2c5c10640b9a933a660d610bfa7db7d8ab3a8531d642a914cfb9747",
     "1436381728")]

/-- The `ADD_CHECKPOINT2` lines of `init_default_checkpoints` for the staging
network, in source order. -/
def stagenet_checkpoints : List (Nat × String × String) :=
  [(0, "d833094ccf64a3f05292a6ce6b61cb42c3490115ac1a80390b6bced0df8f1416", "1"),
   (80000, "a6b4d686c5b9fcf7a73e8e3e63bda1989d608c55bff391235500b2a1720d2ad4", "8824240"),
   (200000, "b51c712e2afcf575cd79df1c473e83c4fdcfbce00934cde03a480b8ac81771e1",
     "2186992746")]

/-- The `ADD_CHECKPOINT2` lines of `init_default_checkpoints` for the primary
network, in source order. -/
def mainnet_checkpoints : List (Nat × String × String) :=
  [(1, "1440a20f078bf3264822234b347f8382606577d73d4e9d3cb7296d73889bc421", "2"),
   (100, "6dd13aaab16679f49ee6b2b75c7dc99b1fd09ab2282b18cb4b55b73110655742", "120823772"),
   (1000, "bc6458452fd0575a314089bf302f6fd68ebaa2d689c42f3365293b96bbdf1f25", "9161286978"),
   (10000, "1ac1ebd25baf0d6ec593daa3389f1aa7e860ff2cc29f3cf1be586d245b379da4",
     "71151659200"),
   (15000, "15567af42afc1ed00538f53b5e3822d421e3ed6372ca79f4ea4e3e3bab709a87",
     "102902810479"),
   (175500, "3f7dd748b3b863b04654d87a387f2b65a365f467188971f3192eab2368e64a35",
     "1382142910023"),
   (450000, "f69a6e57c4dd5df2f492c9d31c50f11aad2c25a64d540ce5f5d11b572aec8ab7",
     "1604326150186"),
   (540000, "94e19cf9d5a16ae90f67c321f8376b87da21d6d6c2cb0957b9ab558dca66c1dc",
     "1691603760435"),
   (592001, "e8bc936b287a9c426a15cf127624b064c88e6d37655cc87f9a62cf1623c62385",
     "1817694366711"),
   (798358, "804c7fe07511d9387e7cda534c9e8b644d406d8d0ff299799a8177850d4e75a0",
     "26676268161857"),
   (871000, "99f7e5460da3fb4e2b15214017b0a17ff0294823ad852259ff837f0ffeeb90f0",
     "74226941049292"),
   (959800, "8a89ede82ae1e3408703feae87c99bccca8455744743eede02bd76b43d202dc6",
     "716458758970498"),
   (1026000, "ea5ace68a81b3b50ec27a457799fec63a9d45acd35a38e31e2b7b5be2315a13e",
     "997668660280133"),
   (1133000, "4efa7a1aa943b3d1a9cd8807cdb34ba10767e6437876e28964dcdf1bb4da62e2",
     "1627621413427613"),
   (1157000, "320304a96228979a9565c550c666a5ceaf2f2dbd99aa5ff8354385fb515be7ea",
     "11699971284450871988"),
   (1260000, "6afc9c592c80638da2a11cedd716926f5c63b877945855808c25553000902d3f",
     "158147492702791503418"),
   (1470000, "b419aa44016b6b1f93acecd963a27ead03f56fba8bed038e8f9704ae8fc4731b",
     "559264147197470555383")]

/-- The `ADD_CHECKPOINT2` lines that `init_default_checkpoints` runs for a network:
the test-network block, the staging-network block, and for every other value the
lines after the two blocks. -/
def default_checkpoints (nettype : network_type) : List (Nat × String × String) :=
  if nettype = network_type.TESTNET then testnet_checkpoints
  else if nettype = network_type.STAGENET then stagenet_checkpoints
  else mainnet_checkpoints

/-- A run of `ADD_CHECKPOINT2` statements followed by `return true`. -/
def add_checkpoint_lines (abort_on_failure : Bool) (D : decoders) (c : checkpoints) :
    List (Nat × String × String) → Bool × checkpoints
  | [] => (true, c)
  | line :: rest =>
    match ADD_CHECKPOINT2 abort_on_failure D c line.1 line.2.1 line.2.2 with
    | (some r, c') => (r, c')
    | (none, c') => add_checkpoint_lines abort_on_failure D c' rest

/-- The member `checkpoints::init_default_checkpoints`. -/
def init_default_checkpoints (abort_on_failure : Bool) (D : decoders) (c : checkpoints)
    (nettype : network_type) : Bool × checkpoints :=
  add_checkpoint_lines abort_on_failure D c (default_checkpoints nettype)

/-- The struct `t_hashline`: one checkpoint line of the file. -/
structure t_hashline where
  /-- The height of the checkpoint. -/
  height : Nat
  /-- The hash text of the checkpoint. -/
  hash : String
deriving DecidableEq

/-- The struct `t_hash_json`: the checkpoint lines of the file. -/
structure t_hash_json where
  /-- The checkpoint lines, in file order. -/
  hashlines : List t_hashline

/-- The `for` loop of `load_checkpoints_from_json` over the lines still to be
visited, followed by `return true`. -/
def load_checkpoints_loop (abort_on_failure : Bool) (D : decoders) (prev_max_height : Nat)
    (c : checkpoints) : List t_hashline → Bool × checkpoints
  | [] => (true, c)
  | it :: rest =>
    let height := it.height
    if height ≤ prev_max_height then
      load_checkpoints_loop abort_on_failure D prev_max_height c rest
    else
      let blockhash := it.hash
      match ADD_CHECKPOINT abort_on_failure D c height blockhash with
      | (some r, c') => (r, c')
      | (none, c') => load_checkpoints_loop abort_on_failure D prev_max_height c' rest

/-- The member `checkpoints::load_checkpoints_from_json`. The two external calls
are taken by their outcome: `file_exists` is the result of
`boost::filesystem::exists`, and `loaded` is the document that
`epee::serialization::load_t_from_json_file` decoded, `none` when it returned
false. -/
def load_checkpoints_from_json (abort_on_failure : Bool) (D : decoders) (c : checkpoints)
    (file_exists : Bool) (loaded : Option t_hash_json) : Bool × checkpoints :=
  if !file_exists then (true, c)
  else
    let prev_max_height := get_max_height c
    match loaded with
    | none => (false, c)
    | some hashes =>
      load_checkpoints_loop abort_on_failure D prev_max_height c hashes.hashlines

/-- The lines of the file for which the loop of `load_checkpoints_from_json` calls
`add_checkpoint`, in order. It follows the loop step by step and records the line
whenever `ADD_CHECKPOINT` is reached. -/
def load_checkpoints_attempts (abort_on_failure : Bool) (D : decoders)
    (prev_max_height : Nat) (c : checkpoints) : List t_hashline → List t_hashline
  | [] => []
  | it :: rest =>
    if it.height ≤ prev_max_height then
      load_checkpoints_attempts abort_on_failure D prev_max_height c rest
    else
      match ADD_CHECKPOINT abort_on_failure D c it.height it.hash with
      | (some _, _) => [it]
      | (none, c') => it :: load_checkpoints_attempts abort_on_failure D prev_max_height c' rest

/-! ## Sequences of calls -/

/-- The arguments of one call of `add_checkpoint`. -/
structure call where
  /-- The argument `height`. -/
  height : Nat
  /-- The argument `hash_str`. -/
  hash_str : String
  /-- The argument `difficulty_str`. -/
  difficulty_str : String

/-- The registry after a sequence of `add_checkpoint` calls made on `c`, in order,
whatever each call returns. -/
def run (D : decoders) (c : checkpoints) : List call → checkpoints
  | [] => c
  | x :: rest => run D (add_checkpoint D c x.height x.hash_str x.difficulty_str).2 rest

/-- The booleans returned by a sequence of `add_checkpoint` calls made on `c`. -/
def returns (D : decoders) (c : checkpoints) : List call → List Bool
  | [] => []
  | x :: rest =>
    (add_checkpoint D c x.height x.hash_str x.difficulty_str).1 ::
      returns D (add_checkpoint D c x.height x.hash_str x.difficulty_str).2 rest

/-- The digest decoded from the hash text of the first call at height `h`, in a
sequence of calls made on `c`, that returned success; `none` when no call at `h`
returned success. -/
def first_success (D : decoders) (c : checkpoints) (h : Nat) : List call → Option hash
  | [] => none
  | x :: rest =>
    if x.height = h ∧ (add_checkpoint D c x.height x.hash_str x.difficulty_str).1 = true then
      D.parse_tpod_from_hex_string x.hash_str
    else first_success D (add_checkpoint D c x.height x.hash_str x.difficulty_str).2 h rest

/-- The digest decoded from the hash text of the first call at height `h`, in a
sequence of calls, whose hash text decodes at all; `none` when there is no such
call. -/
def first_decoded (D : decoders) (h : Nat) : List call → Option hash
  | [] => none
  | x :: rest =>
    if x.height = h then
      match D.parse_tpod_from_hex_string x.hash_str with
      | some d => some d
      | none => first_decoded D h rest
    else first_decoded D h rest

/-! ## Sample data -/

/-- The hash text of the first built-in test-network checkpoint. -/
def sample_hash_a : String :=
  "d0ae70ae5f35b27b3a4b68ae4f78eeca9989174eebe8a1e55cd139fe9b797223"

/-- The hash text of the second built-in test-network checkpoint. -/
def sample_hash_b : String :=
  "71f59410da0bf670c6f24c91f0f940c5c3541a150a38f5fa7f9c520a230158d9"

/-- The digest that `sample_hash_a` decodes to under `reference_decoders`. -/
def sample_digest_a : hash :=
  ⟨94389281591239165734736644919142877583574951612093616501068526215917500723747,
    by decide⟩

/-- The digest that `sample_hash_b` decodes to under `reference_decoders`. -/
def sample_digest_b : hash :=
  ⟨51545251333561278460734850656179147435215290309948190172221860806644876794073,
    by decide⟩

/-- A registry with height 5 pinned to `sample_digest_a` and to difficulty 12. -/
def sample_registry : checkpoints :=
  (add_checkpoint reference_decoders checkpoints.init 5 sample_hash_a "12").2

/-! ## Facts about the ordered table -/

theorem lookup_assign {V : Type} (j k : Nat) (v : V) (l : List (Nat × V)) :
    lookup j (assign k v l) = if j = k then some v else lookup j l := by
  induction l with
  | nil => simp [assign, lookup]
  | cons x t ih =>
    obtain ⟨k', v'⟩ := x
    unfold assign
    by_cases hj : j = k
    · subst hj
      rw [if_pos rfl]
      by_cases h1 : j < k'
      · rw [if_pos h1]
        simp [lookup]
      · rw [if_neg h1]
        by_cases h2 : j = k'
        · rw [if_pos h2]
          simp [lookup]
        · rw [if_neg h2]
          simp only [lookup, if_neg h2, ih, if_pos]
    · rw [if_neg hj]
      by_cases h1 : k < k'
      · rw [if_pos h1]
        simp only [lookup, if_neg hj]
      · rw [if_neg h1]
        by_cases h2 : k = k'
        · rw [if_pos h2]
          subst h2
          simp only [lookup, if_neg hj]
        · rw [if_neg h2]
          simp only [lookup, ih, if_neg hj]

theorem lookup_none_of_above {V : Type} (k : Nat) (l : List (Nat × V)) (hl : above k l) :
    lookup k l = none := by
  induction l with
  | nil => rfl
  | cons x t ih =>
    obtain ⟨k', v'⟩ := x
    have hx : k < k' := hl (k', v') (by simp)
    have ht : above k t := fun e he => hl e (by simp [he])
    have hne : ¬ k = k' := by omega
    simp [lookup, hne, ih ht]

theorem assign_eq_self {V : Type} (k : Nat) (v : V) (l : List (Nat × V))
    (hl : l.Pairwise (fun a b => a.1 < b.1)) (hk : lookup k l = some v) :
    assign k v l = l := by
  induction l with
  | nil => simp [lookup] at hk
  | cons x t ih =>
    obtain ⟨k', v'⟩ := x
    rw [List.pairwise_cons] at hl
    obtain ⟨hx, ht⟩ := hl
    unfold assign
    by_cases h2 : k = k'
    · subst h2
      simp [lookup] at hk
      simp [hk]
    · simp only [lookup, if_neg h2] at hk
      have h1 : ¬ k < k' := by
        intro hlt
        have : above k t := fun e he => lt_trans hlt (hx e he)
        rw [lookup_none_of_above k t this] at hk
        exact Option.noConfusion hk
      rw [if_neg h1, if_neg h2, ih ht hk]

theorem lookup_mem {V : Type} (k : Nat) (v : V) (l : List (Nat × V))
    (hk : lookup k l = some v) : (k, v) ∈ l := by
  induction l with
  | nil => simp [lookup] at hk
  | cons x t ih =>
    obtain ⟨k', v'⟩ := x
    by_cases h2 : k = k'
    · subst h2
      simp [lookup] at hk
      simp [hk]
    · simp only [lookup, if_neg h2] at hk
      exact List.mem_cons_of_mem _ (ih hk)

theorem lookup_isSome_of_mem {V : Type} (e : Nat × V) (l : List (Nat × V)) (he : e ∈ l) :
    (lookup e.1 l).isSome = true := by
  induction l with
  | nil => simp at he
  | cons x t ih =>
    obtain ⟨k', v'⟩ := x
    by_cases h2 : e.1 = k'
    · simp [lookup, h2]
    · rcases List.mem_cons.1 he with rfl | he
      · exact absurd rfl h2
      · simp only [lookup, if_neg h2]
        exact ih he

namespace std_map

variable {V : Type}

theorem find_nil (k : Nat) : (nil : std_map V).find k = none := rfl

theorem find_set (m : std_map V) (j k : Nat) (v : V) :
    (m.set k v).find j = if j = k then some v else m.find j :=
  lookup_assign j k v m.entries

theorem set_eq_self (m : std_map V) (k : Nat) (v : V) (hk : m.find k = some v) :
    m.set k v = m :=
  ext_entries (assign_eq_self k v m.entries m.ordered hk)

theorem count_ne_zero (m : std_map V) (k : Nat) :
    m.count k ≠ 0 ↔ (m.find k).isSome = true := by
  unfold count
  split_ifs with h <;> simp [h]

end std_map

/-- The value of `add_checkpoint` when the hash text does not decode. -/
theorem add_checkpoint_undecoded (D : decoders) (c : checkpoints) (height : Nat)
    (hash_str difficulty_str : String) (hd : D.parse_tpod_from_hex_string hash_str = none) :
    add_checkpoint D c height hash_str difficulty_str = (false, c) := by
  simp [add_checkpoint, hd]

/-- The value of `add_checkpoint` when the height is pinned to another hash. -/
theorem add_checkpoint_conflict (D : decoders) (c : checkpoints) (height : Nat)
    (hash_str difficulty_str : String) (d p : hash)
    (hd : D.parse_tpod_from_hex_string hash_str = some d)
    (hp : c.m_points.find height = some p) (hne : d ≠ p) :
    add_checkpoint D c height hash_str difficulty_str = (false, c) := by
  have h1 : c.m_points.count height ≠ 0 := by
    rw [std_map.count_ne_zero, hp]; rfl
  have h2 : ¬ (c.m_points.find height = some d) := by
    rw [hp]; intro e; exact hne (Option.some.inj e).symm
  simp only [add_checkpoint, hd]
  rw [if_pos ⟨h1, h2⟩]

/-- The value of `add_checkpoint` when the hash text decodes to `d` and the height
is unpinned or pinned to `d`: the hash is stored, then the difficulty text is
looked at. -/
theorem add_checkpoint_accepted (D : decoders) (c : checkpoints) (height : Nat)
    (hash_str difficulty_str : String) (d : hash)
    (hd : D.parse_tpod_from_hex_string hash_str = some d)
    (hp : c.m_points.find height = none ∨ c.m_points.find height = some d) :
    add_checkpoint D c height hash_str difficulty_str =
      if difficulty_str.isEmpty then
        (true, ⟨c.m_points.set height d, c.m_difficulty_points⟩)
      else
        match D.difficulty_from_string difficulty_str with
        | none => (false, ⟨c.m_points.set height d, c.m_difficulty_points⟩)
        | some difficulty =>
          match c.m_difficulty_points.find height with
          | none =>
            (true, ⟨c.m_points.set height d, c.m_difficulty_points.set height difficulty⟩)
          | some q =>
            if q = difficulty then
              (true, ⟨c.m_points.set height d, c.m_difficulty_points.set height difficulty⟩)
            else (false, ⟨c.m_points.set height d, c.m_difficulty_points⟩) := by
  have h0 : ¬ (c.m_points.count height ≠ 0 ∧ ¬ (c.m_points.find height = some d)) := by
    rintro ⟨h1, h2⟩
    rcases hp with hp | hp
    · rw [std_map.count_ne_zero, hp] at h1
      exact Bool.noConfusion h1
    · exact h2 hp
  simp only [add_checkpoint, hd]
  rw [if_neg h0]
  by_cases he : difficulty_str.isEmpty = true
  · simp [he]
  · simp only [he]
    cases hq : D.difficulty_from_string difficulty_str with
    | none => simp
    | some difficulty =>
      cases hf : c.m_difficulty_points.find height with
      | none => simp [std_map.count, hf]
      | some q =>
        by_cases hqd : q = difficulty
        · simp [std_map.count, hf, hqd]
        · simp [std_map.count, hf, hqd]

/-- The two tables after `add_checkpoint`, by cases: either nothing changed, or the
hash table got `height` set to the decoded digest `d` (at a height that was
unpinned or pinned to `d`) and the difficulty table is either unchanged or got
`height` set to the decoded difficulty `q` (at a height that had no difficulty or
had `q`). -/
theorem add_checkpoint_tables (D : decoders) (c : checkpoints) (height : Nat)
    (hash_str difficulty_str : String) :
    (add_checkpoint D c height hash_str difficulty_str).2 = c ∨
    ∃ d, D.parse_tpod_from_hex_string hash_str = some d ∧
      (c.m_points.find height = none ∨ c.m_points.find height = some d) ∧
      (add_checkpoint D c height hash_str difficulty_str).2.m_points =
        c.m_points.set height d ∧
      ((add_checkpoint D c height hash_str difficulty_str).2.m_difficulty_points =
          c.m_difficulty_points ∨
        ∃ q, D.difficulty_from_string difficulty_str = some q ∧
          difficulty_str.isEmpty = false ∧
          (c.m_difficulty_points.find height = none ∨
            c.m_difficulty_points.find height = some q) ∧
          (add_checkpoint D c height hash_str difficulty_str).2.m_difficulty_points =
            c.m_difficulty_points.set height q) := by
  cases hd : D.parse_tpod_from_hex_string hash_str with
  | none => left; rw [add_checkpoint_undecoded D c height hash_str difficulty_str hd]
  | some d =>
    cases hp : c.m_points.find height with
    | some p =>
      by_cases hne : d = p
      · subst hne
        right
        refine ⟨d, rfl, Or.inr rfl, ?_⟩
        rw [add_checkpoint_accepted D c height hash_str difficulty_str d hd (Or.inr hp)]
        by_cases he : difficulty_str.isEmpty = true
        · simp [he]
        · simp only [he]
          cases hq : D.difficulty_from_string difficulty_str with
          | none => simp
          | some q =>
            cases hf : c.m_difficulty_points.find height with
            | none => simp [he]
            | some q0 =>
              by_cases hqd : q0 = q
              · simp [hqd, he]
              · simp [hqd]
      · left
        rw [add_checkpoint_conflict D c height hash_str difficulty_str d p hd hp hne]
    | none =>
      right
      refine ⟨d, rfl, Or.inl rfl, ?_⟩
      rw [add_checkpoint_accepted D c height hash_str difficulty_str d hd (Or.inl hp)]
      by_cases he : difficulty_str.isEmpty = true
      · simp [he]
      · simp only [he]
        cases hq : D.difficulty_from_string difficulty_str with
        | none => simp
        | some q =>
          cases hf : c.m_difficulty_points.find height with
          | none => simp [he]
          | some q0 =>
            by_cases hqd : q0 = q
            · simp [hqd, he]
            · simp [hqd]

/-- A value already stored under a key stays stored under it when `set` is used at
a key that is absent or holds the value being set. -/
theorem std_map.find_set_of_find {V : Type} (m : std_map V) (j k : Nat) (v w : V)
    (hk : m.find k = none ∨ m.find k = some v) (hj : m.find j = some w) :
    (m.set k v).find j = some w := by
  rw [std_map.find_set]
  by_cases e : j = k
  · subst e
    rcases hk with hk | hk
    · rw [hk] at hj; exact Option.noConfusion hj
    · rw [if_pos rfl, ← hk, hj]
  · rw [if_neg e, hj]

/-- The hash table after an accepted hash: `height` is set to the digest. -/
theorem add_checkpoint_accepted_points (D : decoders) (c : checkpoints) (height : Nat)
    (hash_str difficulty_str : String) (d : hash)
    (hd : D.parse_tpod_from_hex_string hash_str = some d)
    (hp : c.m_points.find height = none ∨ c.m_points.find height = some d) :
    (add_checkpoint D c height hash_str difficulty_str).2.m_points =
      c.m_points.set height d := by
  rw [add_checkpoint_accepted D c height hash_str difficulty_str d hd hp]
  by_cases he : difficulty_str.isEmpty = true
  · simp [he]
  · simp only [he]
    cases hq : D.difficulty_from_string difficulty_str with
    | none => simp
    | some q =>
      cases hf : c.m_difficulty_points.find height with
      | none => simp
      | some q0 => by_cases hqd : q0 = q <;> simp [hqd]

/-- What a successful call did: the hash text decoded to a digest `d`, the height
was unpinned or pinned to `d`, and either the difficulty text was empty and only
the hash was stored, or it decoded to `q`, the height had no difficulty or had `q`,
and both were stored. -/
theorem add_checkpoint_true (D : decoders) (c : checkpoints) (height : Nat)
    (hash_str difficulty_str : String)
    (hr : (add_checkpoint D c height hash_str difficulty_str).1 = true) :
    ∃ d, D.parse_tpod_from_hex_string hash_str = some d ∧
      (c.m_points.find height = none ∨ c.m_points.find height = some d) ∧
      ((difficulty_str.isEmpty = true ∧
          (add_checkpoint D c height hash_str difficulty_str).2 =
            ⟨c.m_points.set height d, c.m_difficulty_points⟩) ∨
        (difficulty_str.isEmpty = false ∧
          ∃ q, D.difficulty_from_string difficulty_str = some q ∧
            (c.m_difficulty_points.find height = none ∨
              c.m_difficulty_points.find height = some q) ∧
            (add_checkpoint D c height hash_str difficulty_str).2 =
              ⟨c.m_points.set height d, c.m_difficulty_points.set height q⟩)) := by
  cases hd : D.parse_tpod_from_hex_string hash_str with
  | none =>
    rw [add_checkpoint_undecoded D c height hash_str difficulty_str hd] at hr
    exact Bool.noConfusion hr
  | some d =>
    have key : c.m_points.find height = none ∨ c.m_points.find height = some d := by
      cases hp : c.m_points.find height with
      | none => exact Or.inl rfl
      | some p =>
        by_cases hne : d = p
        · subst hne; exact Or.inr rfl
        · rw [add_checkpoint_conflict D c height hash_str difficulty_str d p hd hp hne] at hr
          exact Bool.noConfusion hr
    refine ⟨d, rfl, key, ?_⟩
    rw [add_checkpoint_accepted D c height hash_str difficulty_str d hd key] at hr ⊢
    by_cases he : difficulty_str.isEmpty = true
    · left
      simp [he]
    · right
      simp only [he] at hr ⊢
      refine ⟨by simp, ?_⟩
      cases hq : D.difficulty_from_string difficulty_str with
      | none => rw [hq] at hr; simp at hr
      | some q =>
        rw [hq] at hr
        refine ⟨q, rfl, ?_⟩
        cases hf : c.m_difficulty_points.find height with
        | none => simp
        | some q0 =>
          rw [hf] at hr
          by_cases hqd : q0 = q
          · simp [hqd]
          · simp [hqd] at hr

/-- The hash stored under any height `k` after a call: a hash stored before stays;
an unpinned `k` gets the decoded digest of the call when the call is at `k`. -/
theorem add_checkpoint_find (D : decoders) (c : checkpoints) (height : Nat)
    (hash_str difficulty_str : String) (k : Nat) :
    (add_checkpoint D c height hash_str difficulty_str).2.m_points.find k =
      match c.m_points.find k with
      | some p => some p
      | none => if k = height then D.parse_tpod_from_hex_string hash_str else none := by
  cases hd : D.parse_tpod_from_hex_string hash_str with
  | none =>
    rw [add_checkpoint_undecoded D c height hash_str difficulty_str hd]
    cases hk : c.m_points.find k <;> simp
  | some d =>
    cases hp : c.m_points.find height with
    | none =>
      rw [add_checkpoint_accepted_points D c height hash_str difficulty_str d hd (Or.inl hp),
        std_map.find_set]
      by_cases e : k = height
      · subst e; simp [hp]
      · simp only [if_neg e]
        cases hk : c.m_points.find k <;> simp
    | some p =>
      by_cases hne : d = p
      · subst hne
        rw [add_checkpoint_accepted_points D c height hash_str difficulty_str d hd (Or.inr hp),
          std_map.find_set]
        by_cases e : k = height
        · subst e; simp [hp]
        · simp only [if_neg e]
          cases hk : c.m_points.find k <;> simp
      · rw [add_checkpoint_conflict D c height hash_str difficulty_str d p hd hp hne]
        by_cases e : k = height
        · subst e; simp [hp]
        · cases hk : c.m_points.find k <;> simp [e]

/-- One call keeps the property that every height with a pinned difficulty has a
pinned hash. -/
theorem add_checkpoint_difficulty_has_hash (D : decoders) (c : checkpoints) (height : Nat)
    (hash_str difficulty_str : String)
    (hc : ∀ k, (c.m_difficulty_points.find k).isSome = true →
      (c.m_points.find k).isSome = true) (k : Nat)
    (hk : ((add_checkpoint D c height hash_str difficulty_str).2.m_difficulty_points.find
      k).isSome = true) :
    ((add_checkpoint D c height hash_str difficulty_str).2.m_points.find k).isSome = true := by
  rcases add_checkpoint_tables D c height hash_str difficulty_str with h | ⟨d, _, _, h1, h2⟩
  · rw [h] at hk ⊢
    exact hc k hk
  · rw [h1, std_map.find_set]
    by_cases e : k = height
    · rw [if_pos e]; rfl
    · rw [if_neg e]
      rcases h2 with h2 | ⟨q, _, _, _, h2⟩
      · rw [h2] at hk
        exact hc k hk
      · rw [h2, std_map.find_set, if_neg e] at hk
        exact hc k hk

/-- After any sequence of calls on the empty registry, every height with a pinned
difficulty has a pinned hash. -/
theorem run_difficulty_has_hash (D : decoders) (calls : List call) (c : checkpoints)
    (hc : ∀ k, (c.m_difficulty_points.find k).isSome = true →
      (c.m_points.find k).isSome = true) (k : Nat)
    (hk : ((run D c calls).m_difficulty_points.find k).isSome = true) :
    ((run D c calls).m_points.find k).isSome = true := by
  induction calls generalizing c with
  | nil => exact hc k hk
  | cons x rest ih =>
    exact ih _ (add_checkpoint_difficulty_has_hash D c x.height x.hash_str x.difficulty_str hc) hk

/-! ## Facts about positions in the ordered table -/

theorem is_alternative_block_allowed_eq (c : checkpoints)
    (blockchain_height block_height : Nat) :
    is_alternative_block_allowed c blockchain_height block_height =
      if 0 = block_height then false
      else allowed_above c.m_points.entries blockchain_height block_height := by
  unfold is_alternative_block_allowed allowed_above std_map.upper_bound
  by_cases h0 : 0 = block_height
  · rw [if_pos h0, if_pos h0]
  · rw [if_neg h0, if_neg h0]
    by_cases h1 : c.m_points.entries.findIdx (fun e => decide (blockchain_height < e.1)) = 0
    · simp only [h1, if_true]
    · simp only [h1, if_false]
      cases c.m_points.entries[c.m_points.entries.findIdx
        (fun e => decide (blockchain_height < e.1)) - 1]? <;> rfl

theorem allowed_above_cons {V : Type} (x : Nat × V) (t : List (Nat × V)) (bh blk : Nat) :
    allowed_above (x :: t) bh blk =
      if bh < x.1 then true
      else if t.findIdx (fun e => decide (bh < e.1)) = 0 then decide (x.1 < blk)
      else allowed_above t bh blk := by
  unfold allowed_above
  rw [List.findIdx_cons]
  by_cases h : bh < x.1
  · simp [h]
  · simp only [h, decide_False, cond_false, if_false, Nat.add_sub_cancel]
    rw [if_neg (Nat.succ_ne_zero _)]
    by_cases h0 : t.findIdx (fun e => decide (bh < e.1)) = 0
    · simp [h0]
    · obtain ⟨n, hn⟩ := Nat.exists_eq_succ_of_ne_zero h0
      rw [if_neg h0, hn]
      simp

theorem allowed_above_iff {V : Type} (l : List (Nat × V)) (bh blk : Nat)
    (hl : l.Pairwise (fun a b => a.1 < b.1)) :
    allowed_above l bh blk = true ↔ ∀ e ∈ l, e.1 ≤ bh → e.1 < blk := by
  induction l with
  | nil => simp [allowed_above]
  | cons x t ih =>
    rw [List.pairwise_cons] at hl
    obtain ⟨hx, ht⟩ := hl
    rw [allowed_above_cons]
    by_cases h : bh < x.1
    · rw [if_pos h]
      refine ⟨fun _ e he hle => ?_, fun _ => rfl⟩
      rcases List.mem_cons.1 he with rfl | he
      · omega
      · have := hx e he
        omega
    · rw [if_neg h]
      cases t with
      | nil =>
        simp
        omega
      | cons y t' =>
        rw [List.findIdx_cons]
        by_cases hy : bh < y.1
        · have hall : ∀ e ∈ y :: t', bh < e.1 := by
            intro e he
            rcases List.mem_cons.1 he with rfl | he
            · exact hy
            · exact lt_trans hy ((List.pairwise_cons.1 ht).1 e he)
          simp only [hy, decide_True, cond_true, if_true, decide_eq_true_eq]
          refine ⟨fun hlt e he hle => ?_, fun hall2 => hall2 x (by simp) (by omega)⟩
          rcases List.mem_cons.1 he with rfl | he
          · exact hlt
          · have := hall e he
            omega
        · simp only [hy, decide_False, cond_false]
          rw [if_neg (Nat.succ_ne_zero _), ih ht]
          refine ⟨fun hall e he hle => ?_, fun hall e he hle => hall e (by simp [he]) hle⟩
          rcases List.mem_cons.1 he with rfl | he
          · have h1 := hall y (by simp) (by omega)
            have h2 := hx y (by simp)
            omega
          · exact hall e he hle

/-- A height is pinned exactly when it is the key of an entry. -/
theorem lookup_isSome_iff {V : Type} (k : Nat) (l : List (Nat × V)) :
    (lookup k l).isSome = true ↔ ∃ e ∈ l, e.1 = k := by
  constructor
  · intro h
    obtain ⟨v, hv⟩ := Option.isSome_iff_exists.1 h
    exact ⟨(k, v), lookup_mem k v l hv, rfl⟩
  · rintro ⟨e, he, rfl⟩
    exact lookup_isSome_of_mem e l he

/-- In an ordered table no key is above the key of the last entry. -/
theorem le_of_getLast {V : Type} (l : List (Nat × V)) (x : Nat × V)
    (hl : l.Pairwise (fun a b => a.1 < b.1)) (hx : l.getLast? = some x) :
    ∀ e ∈ l, e.1 ≤ x.1 := by
  induction l with
  | nil => simp at hx
  | cons y t ih =>
    rw [List.pairwise_cons] at hl
    obtain ⟨hy, ht⟩ := hl
    cases t with
    | nil =>
      simp at hx
      subst hx
      intro e he
      simp at he
      rw [he]
    | cons z t' =>
      rw [List.getLast?_cons_cons] at hx
      intro e he
      rcases List.mem_cons.1 he with rfl | he
      · have h1 := ih ht hx z (by simp)
        have h2 := hy z (by simp)
        omega
      · exact ih ht hx e he

/-! ## Facts about `get_max_height`, the zone and `check_for_conflicts` -/

/-- In an ordered table an entry is found under its key. -/
theorem lookup_of_mem {V : Type} (k : Nat) (v : V) (l : List (Nat × V))
    (hl : l.Pairwise (fun a b => a.1 < b.1)) (hm : (k, v) ∈ l) : lookup k l = some v := by
  induction l with
  | nil => simp at hm
  | cons x t ih =>
    obtain ⟨k', v'⟩ := x
    rw [List.pairwise_cons] at hl
    obtain ⟨hx, ht⟩ := hl
    rcases List.mem_cons.1 hm with e | hm
    · injection e with e1 e2
      subst e1
      subst e2
      simp [lookup]
    · have hlt : k' < k := hx (k, v) hm
      have hne : ¬ k = k' := by omega
      simp only [lookup, if_neg hne]
      exact ih ht hm

/-- Every pinned height is at most `get_max_height`. -/
theorem le_get_max_height (c : checkpoints) (p : Nat)
    (hp : (c.m_points.find p).isSome = true) : p ≤ get_max_height c := by
  obtain ⟨e, he, rfl⟩ := (lookup_isSome_iff p c.m_points.entries).1 hp
  unfold get_max_height std_map.empty std_map.back_key
  cases hx : c.m_points.entries.getLast? with
  | none =>
    have hnil : c.m_points.entries = [] := List.getLast?_eq_none_iff.1 hx
    rw [hnil] at he
    simp at he
  | some x =>
    have hne : c.m_points.entries.isEmpty = false := by
      cases hl : c.m_points.entries with
      | nil => rw [hl] at he; simp at he
      | cons y t => rfl
    simp only [hne, Option.map_some']
    exact le_of_getLast c.m_points.entries x c.m_points.ordered hx e he

/-- With an empty table `get_max_height` is 0. -/
theorem get_max_height_of_empty (c : checkpoints) (he : c.m_points.empty = true) :
    get_max_height c = 0 := by
  unfold get_max_height
  rw [if_pos he]

/-- With a non-empty table `get_max_height` is a pinned height. -/
theorem get_max_height_pinned (c : checkpoints) (he : c.m_points.empty = false) :
    (c.m_points.find (get_max_height c)).isSome = true := by
  unfold get_max_height
  rw [he]
  unfold std_map.empty at he
  unfold std_map.back_key
  cases hx : c.m_points.entries.getLast? with
  | none =>
    have hnil : c.m_points.entries = [] := List.getLast?_eq_none_iff.1 hx
    rw [hnil] at he
    exact Bool.noConfusion he
  | some x =>
    have hmem : x ∈ c.m_points.entries := List.mem_of_getLast?_eq_some hx
    exact (lookup_isSome_iff x.1 c.m_points.entries).2 ⟨x, hmem, rfl⟩

/-- A table with a pinned height is not empty. -/
theorem not_empty_of_pinned (c : checkpoints) (p : Nat)
    (hp : (c.m_points.find p).isSome = true) : c.m_points.empty = false := by
  obtain ⟨e, he, _⟩ := (lookup_isSome_iff p c.m_points.entries).1 hp
  unfold std_map.empty
  cases hl : c.m_points.entries with
  | nil => rw [hl] at he; simp at he
  | cons y t => rfl

/-- A height is in the checkpoint zone exactly when it is at most `get_max_height`
and the table is not empty. -/
theorem is_in_checkpoint_zone_eq (c : checkpoints) (height : Nat) :
    is_in_checkpoint_zone c height =
      (!c.m_points.empty && decide (height ≤ get_max_height c)) := by
  unfold is_in_checkpoint_zone get_max_height
  cases he : c.m_points.empty with
  | true => rfl
  | false =>
    cases hx : c.m_points.back_key with
    | none =>
      unfold std_map.back_key at hx
      unfold std_map.empty at he
      have hnil : c.m_points.entries = [] := by
        cases hl : c.m_points.entries.getLast? with
        | none => exact List.getLast?_eq_none_iff.1 hl
        | some x => rw [hl] at hx; exact Option.noConfusion hx
      rw [hnil] at he
      exact Bool.noConfusion he
    | some x => simp

/-- The loop of `check_for_conflicts` returns true exactly when every visited entry
whose height is pinned in `c` carries the hash pinned in `c`. -/
theorem check_for_conflicts_loop_iff (c : checkpoints) (l : List (Nat × hash)) :
    check_for_conflicts_loop c l = true ↔
      ∀ e ∈ l, ∀ p, c.m_points.find e.1 = some p → p = e.2 := by
  induction l with
  | nil => simp [check_for_conflicts_loop]
  | cons x t ih =>
    unfold check_for_conflicts_loop
    by_cases hx : c.m_points.count x.1 ≠ 0 ∧ ¬ (c.m_points.find x.1 = some x.2)
    · rw [if_pos hx]
      obtain ⟨h1, h2⟩ := hx
      rw [std_map.count_ne_zero] at h1
      obtain ⟨p, hp⟩ := Option.isSome_iff_exists.1 h1
      constructor
      · intro h; exact Bool.noConfusion h
      · intro hall
        have := hall x (by simp) p hp
        rw [hp, this] at h2
        exact absurd rfl h2
    · rw [if_neg hx, ih]
      constructor
      · intro hall e he p hp
        rcases List.mem_cons.1 he with rfl | he
        · by_contra hne
          apply hx
          refine ⟨?_, ?_⟩
          · rw [std_map.count_ne_zero, hp]; rfl
          · rw [hp]
            intro e'
            exact hne (Option.some.inj e')
        · exact hall e he p hp
      · intro hall e he p hp
        exact hall e (List.mem_cons_of_mem _ he) p hp

/-- The member `check_for_conflicts` returns true exactly when every height pinned
in both registries is pinned to the same hash in both. -/
theorem check_for_conflicts_iff (c other : checkpoints) :
    check_for_conflicts c other = true ↔
      ∀ k p q, c.m_points.find k = some p → other.m_points.find k = some q → p = q := by
  unfold check_for_conflicts get_points
  rw [check_for_conflicts_loop_iff]
  constructor
  · intro hall k p q hp hq
    exact hall (k, q) (lookup_mem k q other.m_points.entries hq) p hp
  · intro hall e he p hp
    exact hall e.1 p e.2 hp (lookup_of_mem e.1 e.2 other.m_points.entries other.m_points.ordered he)

/-- The pair that `check_block` returns, read off the hash table. -/
theorem check_block_eq (c : checkpoints) (k : Nat) (x : hash) :
    check_block c k x =
      match c.m_points.find k with
      | none => (true, false)
      | some p => (decide (p = x), true) := by
  unfold check_block
  cases hf : c.m_points.find k with
  | none => simp
  | some p => by_cases e : p = x <;> simp [e]

/-- A height pinned before a call of `add_checkpoint` is pinned after it. -/
theorem add_checkpoint_pinned (D : decoders) (c : checkpoints) (height : Nat)
    (hash_str difficulty_str : String) (k : Nat)
    (hk : (c.m_points.find k).isSome = true) :
    ((add_checkpoint D c height hash_str difficulty_str).2.m_points.find k).isSome = true := by
  obtain ⟨p, hp⟩ := Option.isSome_iff_exists.1 hk
  rw [add_checkpoint_find, hp]
  rfl

/-! ## Facts about the header macros and the loaders -/

/-- The registry after `ADD_CHECKPOINT2` is the registry after the wrapped call. -/
theorem ADD_CHECKPOINT2_snd (abort_on_failure : Bool) (D : decoders) (c : checkpoints)
    (h : Nat) (hash_text difficulty : String) :
    (ADD_CHECKPOINT2 abort_on_failure D c h hash_text difficulty).2 =
      (add_checkpoint D c h hash_text difficulty).2 := by
  unfold ADD_CHECKPOINT2
  by_cases hc : (abort_on_failure && !(add_checkpoint D c h hash_text difficulty).1) = true
  · simp only [hc, if_true]
  · simp only [hc]
    rfl

/-- After a wrapped call that returned true, control goes on to the next
statement. -/
theorem ADD_CHECKPOINT2_of_true (abort_on_failure : Bool) (D : decoders) (c : checkpoints)
    (h : Nat) (hash_text difficulty : String)
    (hr : (add_checkpoint D c h hash_text difficulty).1 = true) :
    ADD_CHECKPOINT2 abort_on_failure D c h hash_text difficulty =
      (none, (add_checkpoint D c h hash_text difficulty).2) := by
  unfold ADD_CHECKPOINT2
  simp [hr]

/-- With `abort_on_failure = false`, control always goes on to the next
statement. -/
theorem ADD_CHECKPOINT2_lenient (D : decoders) (c : checkpoints)
    (h : Nat) (hash_text difficulty : String) :
    ADD_CHECKPOINT2 false D c h hash_text difficulty =
      (none, (add_checkpoint D c h hash_text difficulty).2) := by
  unfold ADD_CHECKPOINT2
  simp

/-- A run of `ADD_CHECKPOINT2` lines with strictly ascending heights, each with a
hash text and a non-empty difficulty text that decode, at heights that carry no
pin yet: every line succeeds, and afterwards each table holds the decoded values
of the lines on top of what it held before. -/
theorem add_checkpoint_lines_fresh (abort_on_failure : Bool) (D : decoders)
    (lines : List (Nat × String × String)) (c : checkpoints)
    (hasc : lines.Pairwise (fun a b => a.1 < b.1))
    (hdec : ∀ t ∈ lines, (D.parse_tpod_from_hex_string t.2.1).isSome = true ∧
      (D.difficulty_from_string t.2.2).isSome = true ∧ t.2.2.isEmpty = false)
    (hfresh : ∀ t ∈ lines, c.m_points.find t.1 = none ∧
      c.m_difficulty_points.find t.1 = none) :
    (add_checkpoint_lines abort_on_failure D c lines).1 = true ∧
    (∀ k, (add_checkpoint_lines abort_on_failure D c lines).2.m_points.find k =
      match lookup k lines with
      | some t => D.parse_tpod_from_hex_string t.1
      | none => c.m_points.find k) ∧
    (∀ k, (add_checkpoint_lines abort_on_failure D c lines).2.m_difficulty_points.find k =
      match lookup k lines with
      | some t => D.difficulty_from_string t.2
      | none => c.m_difficulty_points.find k) := by
  induction lines generalizing c with
  | nil => exact ⟨rfl, fun k => rfl, fun k => rfl⟩
  | cons line rest ih =>
    obtain ⟨h, hs, ds⟩ := line
    rw [List.pairwise_cons] at hasc
    obtain ⟨hh, hrest⟩ := hasc
    obtain ⟨h1, h2, h3⟩ := hdec (h, hs, ds) (by simp)
    obtain ⟨d, hd⟩ := Option.isSome_iff_exists.1 h1
    obtain ⟨q, hq⟩ := Option.isSome_iff_exists.1 h2
    obtain ⟨hp, hdp⟩ := hfresh (h, hs, ds) (by simp)
    simp only at hd hq h3 hp hdp
    have hne : ¬ ds.isEmpty = true := by simp [h3]
    have hadd : add_checkpoint D c h hs ds =
        (true, ⟨c.m_points.set h d, c.m_difficulty_points.set h q⟩) := by
      rw [add_checkpoint_accepted D c h hs ds d hd (Or.inl hp), if_neg hne, hq]
      simp only [hdp]
    have hstep : add_checkpoint_lines abort_on_failure D c ((h, hs, ds) :: rest) =
        add_checkpoint_lines abort_on_failure D
          ⟨c.m_points.set h d, c.m_difficulty_points.set h q⟩ rest := by
      rw [add_checkpoint_lines,
        ADD_CHECKPOINT2_of_true abort_on_failure D c h hs ds (by rw [hadd]), hadd]
    have habove : above h rest := fun e he => hh e he
    have hfresh' : ∀ t ∈ rest,
        (c.m_points.set h d).find t.1 = none ∧
        (c.m_difficulty_points.set h q).find t.1 = none := by
      intro t ht
      have hne' : ¬ t.1 = h := by
        have := hh t ht
        omega
      obtain ⟨a1, a2⟩ := hfresh t (List.mem_cons_of_mem _ ht)
      rw [std_map.find_set, std_map.find_set, if_neg hne', if_neg hne']
      exact ⟨a1, a2⟩
    obtain ⟨r1, r2, r3⟩ := ih ⟨c.m_points.set h d, c.m_difficulty_points.set h q⟩ hrest
      (fun t ht => hdec t (List.mem_cons_of_mem _ ht)) hfresh'
    rw [hstep]
    refine ⟨r1, fun k => ?_, fun k => ?_⟩
    · rw [r2 k]
      by_cases e : k = h
      · subst e
        rw [lookup_none_of_above k rest habove]
        simp only [lookup, if_true]
        rw [std_map.find_set, if_pos rfl, hd]
      · simp only [lookup, if_neg e]
        cases lookup k rest with
        | none => simp only [std_map.find_set, if_neg e]
        | some t => rfl
    · rw [r3 k]
      by_cases e : k = h
      · subst e
        rw [lookup_none_of_above k rest habove]
        simp only [lookup, if_true]
        rw [std_map.find_set, if_pos rfl, hq]
      · simp only [lookup, if_neg e]
        cases lookup k rest with
        | none => simp only [std_map.find_set, if_neg e]
        | some t => rfl

/-- The built-in lines of every network are in strictly ascending height order and
carry non-empty difficulty texts. -/
theorem default_checkpoints_shape (nettype : network_type) :
    (default_checkpoints nettype).Pairwise (fun a b => a.1 < b.1) ∧
    ∀ t ∈ default_checkpoints nettype, t.2.2.isEmpty = false := by
  cases nettype <;> exact ⟨by decide, by decide⟩

/-- A key has a value in a list of entries exactly when it is among the keys. -/
theorem lookup_isSome_iff_mem_keys {V : Type} (k : Nat) (l : List (Nat × V)) :
    (lookup k l).isSome = true ↔ k ∈ l.map Prod.fst := by
  rw [lookup_isSome_iff, List.mem_map]

/-- A call with the empty difficulty text leaves the difficulty table alone. -/
theorem add_checkpoint_no_difficulty (D : decoders) (c : checkpoints) (height : Nat)
    (hash_str : String) :
    (add_checkpoint D c height hash_str "").2.m_difficulty_points =
      c.m_difficulty_points := by
  rcases add_checkpoint_tables D c height hash_str "" with h | ⟨d, _, _, _, h2⟩
  · rw [h]
  · rcases h2 with h2 | ⟨q, _, he, _, _⟩
    · exact h2
    · exact absurd he (by decide)

/-- A call leaves the hash table alone at every height other than its own. -/
theorem add_checkpoint_find_ne (D : decoders) (c : checkpoints) (height : Nat)
    (hash_str difficulty_str : String) (k : Nat) (hk : k ≠ height) :
    (add_checkpoint D c height hash_str difficulty_str).2.m_points.find k =
      c.m_points.find k := by
  rw [add_checkpoint_find, if_neg hk]
  cases c.m_points.find k <;> rfl

/-- One step of the loop of `load_checkpoints_from_json`. -/
theorem load_checkpoints_loop_cons (abort_on_failure : Bool) (D : decoders) (M : Nat)
    (c : checkpoints) (it : t_hashline) (rest : List t_hashline) :
    load_checkpoints_loop abort_on_failure D M c (it :: rest) =
      if it.height ≤ M then load_checkpoints_loop abort_on_failure D M c rest
      else if (abort_on_failure && !(add_checkpoint D c it.height it.hash "").1) = true then
        (false, (add_checkpoint D c it.height it.hash "").2)
      else load_checkpoints_loop abort_on_failure D M
        (add_checkpoint D c it.height it.hash "").2 rest := by
  rw [load_checkpoints_loop]
  by_cases h1 : it.height ≤ M
  · simp only [h1, if_true]
  · simp only [h1, if_false]
    unfold ADD_CHECKPOINT ADD_CHECKPOINT2
    by_cases h2 : (abort_on_failure && !(add_checkpoint D c it.height it.hash "").1) = true
    · simp only [h2, if_true]
    · simp only [h2]
      rfl

/-- One step of the record of attempted lines. -/
theorem load_checkpoints_attempts_cons (abort_on_failure : Bool) (D : decoders) (M : Nat)
    (c : checkpoints) (it : t_hashline) (rest : List t_hashline) :
    load_checkpoints_attempts abort_on_failure D M c (it :: rest) =
      if it.height ≤ M then load_checkpoints_attempts abort_on_failure D M c rest
      else if (abort_on_failure && !(add_checkpoint D c it.height it.hash "").1) = true then
        [it]
      else it :: load_checkpoints_attempts abort_on_failure D M
        (add_checkpoint D c it.height it.hash "").2 rest := by
  rw [load_checkpoints_attempts]
  by_cases h1 : it.height ≤ M
  · simp only [h1, if_true]
  · simp only [h1, if_false]
    unfold ADD_CHECKPOINT ADD_CHECKPOINT2
    by_cases h2 : (abort_on_failure && !(add_checkpoint D c it.height it.hash "").1) = true
    · simp only [h2, if_true]
    · simp only [h2]
      rfl

/-- The loop of `load_checkpoints_from_json` leaves the difficulty table alone and
leaves the hash table alone at every height up to `prev_max_height`. -/
theorem load_checkpoints_loop_frame (abort_on_failure : Bool) (D : decoders) (M : Nat)
    (lines : List t_hashline) (c : checkpoints) :
    (load_checkpoints_loop abort_on_failure D M c lines).2.m_difficulty_points =
      c.m_difficulty_points ∧
    ∀ h, h ≤ M →
      (load_checkpoints_loop abort_on_failure D M c lines).2.m_points.find h =
        c.m_points.find h := by
  induction lines generalizing c with
  | nil => exact ⟨rfl, fun _ _ => rfl⟩
  | cons it rest ih =>
    rw [load_checkpoints_loop_cons]
    by_cases h1 : it.height ≤ M
    · rw [if_pos h1]
      exact ih c
    · rw [if_neg h1]
      have hstep : ∀ h, h ≤ M →
          (add_checkpoint D c it.height it.hash "").2.m_points.find h = c.m_points.find h :=
        fun h hh => add_checkpoint_find_ne D c it.height it.hash "" h (by omega)
      by_cases h2 : (abort_on_failure && !(add_checkpoint D c it.height it.hash "").1) = true
      · rw [if_pos h2]
        exact ⟨add_checkpoint_no_difficulty D c it.height it.hash, hstep⟩
      · rw [if_neg h2]
        obtain ⟨a1, a2⟩ := ih (add_checkpoint D c it.height it.hash "").2
        refine ⟨?_, fun h hh => ?_⟩
        · rw [a1, add_checkpoint_no_difficulty]
        · rw [a2 h hh, hstep h hh]

/-- The lines for which `add_checkpoint` is called are above `prev_max_height`,
and the registry after the loop is the registry after calling `add_checkpoint`,
with the empty difficulty text, on these lines in order. -/
theorem load_checkpoints_attempts_spec (abort_on_failure : Bool) (D : decoders) (M : Nat)
    (lines : List t_hashline) (c : checkpoints) :
    (∀ x ∈ load_checkpoints_attempts abort_on_failure D M c lines,
      M < x.height ∧ x ∈ lines) ∧
    (load_checkpoints_loop abort_on_failure D M c lines).2 =
      run D c ((load_checkpoints_attempts abort_on_failure D M c lines).map
        (fun x => ⟨x.height, x.hash, ""⟩)) := by
  induction lines generalizing c with
  | nil => exact ⟨fun x hx => by simp [load_checkpoints_attempts] at hx, rfl⟩
  | cons it rest ih =>
    rw [load_checkpoints_loop_cons, load_checkpoints_attempts_cons]
    by_cases h1 : it.height ≤ M
    · rw [if_pos h1, if_pos h1]
      obtain ⟨a1, a2⟩ := ih c
      exact ⟨fun x hx => ⟨(a1 x hx).1, List.mem_cons_of_mem _ (a1 x hx).2⟩, a2⟩
    · rw [if_neg h1, if_neg h1]
      by_cases h2 : (abort_on_failure && !(add_checkpoint D c it.height it.hash "").1) = true
      · rw [if_pos h2, if_pos h2]
        refine ⟨fun x hx => ?_, rfl⟩
        rw [List.mem_singleton] at hx
        subst hx
        exact ⟨by omega, List.mem_cons_self _ _⟩
      · rw [if_neg h2, if_neg h2]
        obtain ⟨a1, a2⟩ := ih (add_checkpoint D c it.height it.hash "").2
        refine ⟨fun x hx => ?_, ?_⟩
        · rcases List.mem_cons.1 hx with rfl | hx
          · exact ⟨by omega, List.mem_cons_self _ _⟩
          · exact ⟨(a1 x hx).1, List.mem_cons_of_mem _ (a1 x hx).2⟩
        · rw [a2]
          rfl

/-- When the macro does not abort, or the loop returns true, `add_checkpoint` is
called for every line above `prev_max_height`, in file order. -/
theorem load_checkpoints_attempts_all (abort_on_failure : Bool) (D : decoders) (M : Nat)
    (lines : List t_hashline) (c : checkpoints)
    (h : abort_on_failure = false ∨
      (load_checkpoints_loop abort_on_failure D M c lines).1 = true) :
    load_checkpoints_attempts abort_on_failure D M c lines =
      lines.filter (fun x => decide (M < x.height)) := by
  induction lines generalizing c with
  | nil => rfl
  | cons it rest ih =>
    rw [load_checkpoints_loop_cons] at h
    rw [load_checkpoints_attempts_cons]
    by_cases h1 : it.height ≤ M
    · rw [if_pos h1] at h ⊢
      have hd : decide (M < it.height) = false := by simp; omega
      rw [List.filter_cons, hd]
      exact ih c h
    · rw [if_neg h1] at h ⊢
      have hd : decide (M < it.height) = true := by simp; omega
      rw [List.filter_cons, hd]
      by_cases h2 : (abort_on_failure && !(add_checkpoint D c it.height it.hash "").1) = true
      · rw [if_pos h2] at h
        rcases h with h | h
        · rw [h] at h2
          exact Bool.noConfusion h2
        · exact Bool.noConfusion h
      · rw [if_neg h2] at h ⊢
        rw [ih _ h]
        rfl

/-- A height above `get_max_height` is not pinned. -/
theorem find_none_of_gt_max (c : checkpoints) (k : Nat) (hk : get_max_height c < k) :
    c.m_points.find k = none := by
  cases hf : c.m_points.find k with
  | none => rfl
  | some p =>
    have := le_get_max_height c k (by rw [hf]; rfl)
    omega

/-- When the macro does not abort, the loop returns true. -/
theorem load_checkpoints_loop_lenient_true (D : decoders) (M : Nat)
    (lines : List t_hashline) (c : checkpoints) :
    (load_checkpoints_loop false D M c lines).1 = true := by
  induction lines generalizing c with
  | nil => rfl
  | cons it rest ih =>
    rw [load_checkpoints_loop_cons]
    by_cases h1 : it.height ≤ M
    · rw [if_pos h1]; exact ih c
    · rw [if_neg h1, if_neg (by simp)]; exact ih _

/-- When the macro does not abort, the loop over two runs of lines is the loop over
the second run started from the registry the first run leaves. -/
theorem load_checkpoints_loop_lenient_append (D : decoders) (M : Nat)
    (pre rest : List t_hashline) (c : checkpoints) :
    load_checkpoints_loop false D M c (pre ++ rest) =
      load_checkpoints_loop false D M (load_checkpoints_loop false D M c pre).2 rest := by
  induction pre generalizing c with
  | nil => rfl
  | cons it pre ih =>
    rw [List.cons_append, load_checkpoints_loop_cons, load_checkpoints_loop_cons]
    by_cases h1 : it.height ≤ M
    · rw [if_pos h1, if_pos h1]; exact ih c
    · rw [if_neg h1, if_neg h1, if_neg (by simp), if_neg (by simp)]; exact ih _

/-- The loop leaves the hash table alone at a height that no visited line has. -/
theorem load_checkpoints_loop_find_other (abort_on_failure : Bool) (D : decoders) (M : Nat)
    (lines : List t_hashline) (c : checkpoints) (k : Nat)
    (hk : ∀ y ∈ lines, y.height ≠ k) :
    (load_checkpoints_loop abort_on_failure D M c lines).2.m_points.find k =
      c.m_points.find k := by
  induction lines generalizing c with
  | nil => rfl
  | cons it rest ih =>
    have hne : k ≠ it.height := fun e => hk it (List.mem_cons_self _ _) e.symm
    have hrest : ∀ y ∈ rest, y.height ≠ k := fun y hy => hk y (List.mem_cons_of_mem _ hy)
    have hstep := add_checkpoint_find_ne D c it.height it.hash "" k hne
    rw [load_checkpoints_loop_cons]
    by_cases h1 : it.height ≤ M
    · rw [if_pos h1]; exact ih c hrest
    · rw [if_neg h1]
      by_cases h2 : (abort_on_failure && !(add_checkpoint D c it.height it.hash "").1) = true
      · rw [if_pos h2]; exact hstep
      · rw [if_neg h2, ih _ hrest, hstep]

/-- C1: `check_block` is fully determined by the `points` table. The value written
to `is_a_checkpoint` says whether `height` is pinned; the returned boolean is true
exactly when `height` is unpinned or pinned to `h`. So a block at a pinned height
with another hash is never accepted, at an unpinned height every hash is accepted
with `is_a_checkpoint = false`, two registries with the same `points` answer alike,
and the two-argument overload returns the same boolean. -/
theorem C1_check_block_determined_by_points (c : checkpoints) (height : Nat) (h : hash) :
    (check_block c height h).2 = (c.m_points.find height).isSome ∧
    ((check_block c height h).1 = true ↔
      (c.m_points.find height = none ∨ c.m_points.find height = some h)) ∧
    (∀ p, c.m_points.find height = some p → p ≠ h → (check_block c height h).1 = false) ∧
    (c.m_points.find height = none → check_block c height h = (true, false)) ∧
    (∀ c' : checkpoints, c'.m_points = c.m_points →
      check_block c' height h = check_block c height h) ∧
    check_block2 c height h = (check_block c height h).1 := by
  refine ⟨?_, ?_, ?_, ?_, ?_, rfl⟩
  · unfold check_block
    cases hf : c.m_points.find height with
    | none => simp
    | some p => by_cases e : p = h <;> simp [e]
  · unfold check_block
    cases hf : c.m_points.find height with
    | none => simp
    | some p => by_cases e : p = h <;> simp [e]
  · intro p hp hne
    unfold check_block
    simp [hp, hne]
  · intro hp
    unfold check_block
    simp [hp]
  · intro c' hc'
    unfold check_block
    rw [hc']

/-- C2: at a height already pinned in `points`, a hash text that decodes to a
digest other than the pinned one makes `add_checkpoint` return false, whatever the
difficulty text, and the registry after the call is the registry before it: both
`points` and `difficulty_points` are as they were. -/
theorem C2_conflicting_hash_rejected (D : decoders) (c : checkpoints) (height : Nat)
    (hash_str difficulty_str : String) (d p : hash)
    (hp : c.m_points.find height = some p)
    (hd : D.parse_tpod_from_hex_string hash_str = some d)
    (hne : d ≠ p) :
    (add_checkpoint D c height hash_str difficulty_str).1 = false ∧
    (add_checkpoint D c height hash_str difficulty_str).2.m_points = c.m_points ∧
    (add_checkpoint D c height hash_str difficulty_str).2.m_difficulty_points =
      c.m_difficulty_points := by
  rw [add_checkpoint_conflict D c height hash_str difficulty_str d p hd hp hne]
  exact ⟨rfl, rfl, rfl⟩

/-- C3: existing pins are immutable under `add_checkpoint`. Whatever the call
returns, a height `k` pinned to `p` in `points` before the call is pinned to `p`
after it, and a height `k` pinned to `q` in `difficulty_points` before the call is
pinned to `q` after it. -/
theorem C3_existing_pins_immutable (D : decoders) (c : checkpoints) (height : Nat)
    (hash_str difficulty_str : String) (k : Nat) :
    (∀ p, c.m_points.find k = some p →
      (add_checkpoint D c height hash_str difficulty_str).2.m_points.find k = some p) ∧
    (∀ q, c.m_difficulty_points.find k = some q →
      (add_checkpoint D c height hash_str difficulty_str).2.m_difficulty_points.find k =
        some q) := by
  rcases add_checkpoint_tables D c height hash_str difficulty_str with h | ⟨d, _, hp, h1, h2⟩
  · rw [h]
    exact ⟨fun _ hp => hp, fun _ hq => hq⟩
  · refine ⟨fun p hk => ?_, fun q hk => ?_⟩
    · rw [h1]
      exact std_map.find_set_of_find c.m_points k height d p hp hk
    · rcases h2 with h2 | ⟨q0, _, _, hq, h2⟩
      · rw [h2]; exact hk
      · rw [h2]
        exact std_map.find_set_of_find c.m_difficulty_points k height q0 q hq hk

/-- Witness for C2: height 5 is pinned to the digest of `sample_hash_a`; a call that
supplies `sample_hash_b` there is rejected and changes nothing. -/
theorem C2_conflicting_hash_rejected_witness :
    sample_registry.m_points.find 5 = some sample_digest_a ∧
    (add_checkpoint reference_decoders sample_registry 5 sample_hash_b "12").1 = false ∧
    (add_checkpoint reference_decoders sample_registry 5 sample_hash_b "12").2.m_points =
      sample_registry.m_points ∧
    (add_checkpoint reference_decoders sample_registry 5 sample_hash_b
      "12").2.m_difficulty_points = sample_registry.m_difficulty_points :=
  ⟨by decide,
    C2_conflicting_hash_rejected reference_decoders sample_registry 5 sample_hash_b "12"
      sample_digest_b sample_digest_a (by decide) (by decide) (by decide)⟩

/-- The hash stored under `k` after a sequence of calls: a hash stored before
stays; an unpinned `k` gets the digest of the first call at `k` whose hash text
decodes. -/
theorem run_find (D : decoders) (k : Nat) (calls : List call) (c : checkpoints) :
    (run D c calls).m_points.find k =
      match c.m_points.find k with
      | some p => some p
      | none => first_decoded D k calls := by
  induction calls generalizing c with
  | nil => cases hk : c.m_points.find k <;> simp [run, first_decoded, hk]
  | cons x rest ih =>
    rw [run, ih, add_checkpoint_find]
    cases hk : c.m_points.find k with
    | some p => simp
    | none =>
      by_cases e : k = x.height
      · subst e
        cases hd : D.parse_tpod_from_hex_string x.hash_str <;> simp [first_decoded, hd]
      · have e' : ¬ x.height = k := fun h => e h.symm
        simp [first_decoded, e, e']

/-- C4 as amended: starting from the empty registry, after any finite sequence of
`add_checkpoint` calls, the hash pinned at a height `h` is the digest of the first
call at height `h` whose hash text decodes, whether or not that call returned
success (`h` is unpinned exactly when there is no such call); and when some call
at height `h` did return success, the hash pinned at `h` is the digest of the
first such call. -/
theorem C4_first_decoded_call_pins (D : decoders) (calls : List call) (h : Nat) :
    (run D checkpoints.init calls).m_points.find h = first_decoded D h calls ∧
    (∀ p, first_success D checkpoints.init h calls = some p →
      (run D checkpoints.init calls).m_points.find h = some p) := by
  refine ⟨?_, ?_⟩
  · rw [run_find]
    rfl
  · generalize checkpoints.init = c
    induction calls generalizing c with
    | nil => intro p hp; simp [first_success] at hp
    | cons x rest ih =>
      intro p hp
      unfold first_success at hp
      split_ifs at hp with hx
      · obtain ⟨hh, hr⟩ := hx
        obtain ⟨d, hd, hk, _⟩ := add_checkpoint_true D c x.height x.hash_str x.difficulty_str hr
        have hpd : d = p := by rw [hd] at hp; exact Option.some.inj hp
        subst hpd
        subst hh
        have h1 : (add_checkpoint D c x.height x.hash_str x.difficulty_str).2.m_points.find
            x.height = some d := by
          rw [add_checkpoint_accepted_points D c x.height x.hash_str x.difficulty_str d hd hk,
            std_map.find_set, if_pos rfl]
        rw [run, run_find, h1]
      · rw [run]
        exact ih _ p hp

/-- Counterexample to C4 as stated: on the empty registry, the single call at
height 5 with a hash text that decodes and the difficulty text `x` returns false,
yet height 5 is pinned afterwards; no call at height 5 returned success, so the
pinned hash is not the digest of a first successful call. -/
theorem C4_counterexample :
    returns reference_decoders checkpoints.init [⟨5, sample_hash_a, "x"⟩] = [false] ∧
    (run reference_decoders checkpoints.init [⟨5, sample_hash_a, "x"⟩]).m_points.find 5 =
      some sample_digest_a ∧
    first_success reference_decoders checkpoints.init 5 [⟨5, sample_hash_a, "x"⟩] = none ∧
    ¬ (∀ (calls : List call) (h : Nat) (p : hash),
        (run reference_decoders checkpoints.init calls).m_points.find h = some p →
        first_success reference_decoders checkpoints.init h calls = some p) := by
  have h1 : (run reference_decoders checkpoints.init
      [⟨5, sample_hash_a, "x"⟩]).m_points.find 5 = some sample_digest_a := by decide
  have h2 : first_success reference_decoders checkpoints.init 5
      [⟨5, sample_hash_a, "x"⟩] = none := by decide
  refine ⟨by decide, h1, h2, fun hall => ?_⟩
  have h3 := hall [⟨5, sample_hash_a, "x"⟩] 5 sample_digest_a h1
  rw [h2] at h3
  exact Option.noConfusion h3

/-- C5: idempotence of `add_checkpoint`. When a call returns true, the same call
made again on the resulting registry returns true as well and leaves that registry
as it is: `points` and `difficulty_points` after the second call equal what they
were after the first. -/
theorem C5_add_checkpoint_idempotent (D : decoders) (c : checkpoints) (height : Nat)
    (hash_str difficulty_str : String)
    (hr : (add_checkpoint D c height hash_str difficulty_str).1 = true) :
    (add_checkpoint D (add_checkpoint D c height hash_str difficulty_str).2 height hash_str
      difficulty_str).1 = true ∧
    (add_checkpoint D (add_checkpoint D c height hash_str difficulty_str).2 height hash_str
      difficulty_str).2.m_points =
        (add_checkpoint D c height hash_str difficulty_str).2.m_points ∧
    (add_checkpoint D (add_checkpoint D c height hash_str difficulty_str).2 height hash_str
      difficulty_str).2.m_difficulty_points =
        (add_checkpoint D c height hash_str difficulty_str).2.m_difficulty_points := by
  obtain ⟨d, hd, _, hcase⟩ := add_checkpoint_true D c height hash_str difficulty_str hr
  rcases hcase with ⟨he, h2⟩ | ⟨he, q, hq, _, h2⟩
  · have hf : (c.m_points.set height d).find height = some d := by
      rw [std_map.find_set, if_pos rfl]
    have h : add_checkpoint D ⟨c.m_points.set height d, c.m_difficulty_points⟩ height hash_str
        difficulty_str = (true, ⟨c.m_points.set height d, c.m_difficulty_points⟩) := by
      rw [add_checkpoint_accepted D _ height hash_str difficulty_str d hd (Or.inr hf),
        if_pos he]
      simp only [std_map.set_eq_self _ height d hf]
    rw [h2, h]
    exact ⟨rfl, rfl, rfl⟩
  · have hf : (c.m_points.set height d).find height = some d := by
      rw [std_map.find_set, if_pos rfl]
    have hg : (c.m_difficulty_points.set height q).find height = some q := by
      rw [std_map.find_set, if_pos rfl]
    have he' : ¬ difficulty_str.isEmpty = true := by simp [he]
    have h : add_checkpoint D ⟨c.m_points.set height d, c.m_difficulty_points.set height q⟩
        height hash_str difficulty_str =
          (true, ⟨c.m_points.set height d, c.m_difficulty_points.set height q⟩) := by
      rw [add_checkpoint_accepted D _ height hash_str difficulty_str d hd (Or.inr hf),
        if_neg he', hq]
      simp only [hg, if_true, std_map.set_eq_self _ height d hf,
        std_map.set_eq_self _ height q hg]
    rw [h2, h]
    exact ⟨rfl, rfl, rfl⟩

/-- Witness for C5: on the empty registry the call at height 5 with a hash text
that decodes and the difficulty text `12` returns true, and so does its repetition,
which changes nothing. -/
theorem C5_add_checkpoint_idempotent_witness :
    (add_checkpoint reference_decoders checkpoints.init 5 sample_hash_a "12").1 = true ∧
    (add_checkpoint reference_decoders
      (add_checkpoint reference_decoders checkpoints.init 5 sample_hash_a "12").2 5
      sample_hash_a "12").1 = true ∧
    (add_checkpoint reference_decoders
      (add_checkpoint reference_decoders checkpoints.init 5 sample_hash_a "12").2 5
      sample_hash_a "12").2.m_points =
        (add_checkpoint reference_decoders checkpoints.init 5 sample_hash_a "12").2.m_points ∧
    (add_checkpoint reference_decoders
      (add_checkpoint reference_decoders checkpoints.init 5 sample_hash_a "12").2 5
      sample_hash_a "12").2.m_difficulty_points =
        (add_checkpoint reference_decoders checkpoints.init 5 sample_hash_a
          "12").2.m_difficulty_points :=
  ⟨by decide,
    C5_add_checkpoint_idempotent reference_decoders checkpoints.init 5 sample_hash_a "12"
      (by decide)⟩

/-- C6: `add_checkpoint` with the empty difficulty text. It returns true exactly
when the hash text decodes to a digest `d` and `height` is unpinned or pinned to
`d`. When it returns true, `points` afterwards is `points` before with `height`
mapped to `d` (every other height reads as before) and `difficulty_points` is
unchanged. When it returns false, both tables are unchanged. -/
theorem C6_add_checkpoint_without_difficulty (D : decoders) (c : checkpoints) (height : Nat)
    (hash_str : String) :
    ((add_checkpoint D c height hash_str "").1 = true ↔
      ∃ d, D.parse_tpod_from_hex_string hash_str = some d ∧
        (c.m_points.find height = none ∨ c.m_points.find height = some d)) ∧
    (∀ d, D.parse_tpod_from_hex_string hash_str = some d →
      (add_checkpoint D c height hash_str "").1 = true →
        (add_checkpoint D c height hash_str "").2.m_points = c.m_points.set height d ∧
        (∀ k, (add_checkpoint D c height hash_str "").2.m_points.find k =
          if k = height then some d else c.m_points.find k) ∧
        (add_checkpoint D c height hash_str "").2.m_difficulty_points =
          c.m_difficulty_points) ∧
    ((add_checkpoint D c height hash_str "").1 = false →
      (add_checkpoint D c height hash_str "").2.m_points = c.m_points ∧
      (add_checkpoint D c height hash_str "").2.m_difficulty_points =
        c.m_difficulty_points) := by
  have hempty : ("" : String).isEmpty = true := by decide
  have hacc : ∀ d, D.parse_tpod_from_hex_string hash_str = some d →
      (c.m_points.find height = none ∨ c.m_points.find height = some d) →
      add_checkpoint D c height hash_str "" =
        (true, ⟨c.m_points.set height d, c.m_difficulty_points⟩) := by
    intro d hd hp
    rw [add_checkpoint_accepted D c height hash_str "" d hd hp, if_pos hempty]
  refine ⟨⟨fun hr => ?_, fun hx => ?_⟩, fun d hd hr => ?_, fun hr => ?_⟩
  · obtain ⟨d, hd, hp, _⟩ := add_checkpoint_true D c height hash_str "" hr
    exact ⟨d, hd, hp⟩
  · obtain ⟨d, hd, hp⟩ := hx
    rw [hacc d hd hp]
  · obtain ⟨d', hd', hp, _⟩ := add_checkpoint_true D c height hash_str "" hr
    have e : d' = d := by rw [hd] at hd'; exact (Option.some.inj hd').symm
    subst e
    rw [hacc d' hd hp]
    exact ⟨rfl, fun k => std_map.find_set c.m_points k height d', rfl⟩
  · cases hd : D.parse_tpod_from_hex_string hash_str with
    | none =>
      rw [add_checkpoint_undecoded D c height hash_str "" hd]
      exact ⟨rfl, rfl⟩
    | some d =>
      cases hp : c.m_points.find height with
      | none =>
        rw [hacc d hd (Or.inl hp)] at hr
        exact Bool.noConfusion hr
      | some p =>
        by_cases hne : d = p
        · subst hne
          rw [hacc d hd (Or.inr hp)] at hr
          exact Bool.noConfusion hr
        · rw [add_checkpoint_conflict D c height hash_str "" d p hd hp hne]
          exact ⟨rfl, rfl⟩

/-- C7: a difficulty parse failure does not roll back the hash insertion. At a
height unpinned in `points`, with a hash text that decodes to `d` and a non-empty
difficulty text that fails to parse, `add_checkpoint` returns false, yet `points`
afterwards pins `height` to `d` (it is `points` before with `height` set to `d`),
and `difficulty_points` is unchanged. -/
theorem C7_difficulty_failure_keeps_hash (D : decoders) (c : checkpoints) (height : Nat)
    (hash_str difficulty_str : String) (d : hash)
    (hp : c.m_points.find height = none)
    (hd : D.parse_tpod_from_hex_string hash_str = some d)
    (hne : difficulty_str ≠ "")
    (hq : D.difficulty_from_string difficulty_str = none) :
    (add_checkpoint D c height hash_str difficulty_str).1 = false ∧
    (add_checkpoint D c height hash_str difficulty_str).2.m_points.find height = some d ∧
    (add_checkpoint D c height hash_str difficulty_str).2.m_points = c.m_points.set height d ∧
    (add_checkpoint D c height hash_str difficulty_str).2.m_difficulty_points =
      c.m_difficulty_points := by
  have he : ¬ difficulty_str.isEmpty = true := fun h => hne ((String.isEmpty_iff _).1 h)
  rw [add_checkpoint_accepted D c height hash_str difficulty_str d hd (Or.inl hp), if_neg he, hq]
  refine ⟨rfl, ?_, rfl, rfl⟩
  show (c.m_points.set height d).find height = some d
  rw [std_map.find_set, if_pos rfl]

/-- Witness for C7: on the empty registry, height 5 is unpinned, `sample_hash_a`
decodes and the difficulty text `x` does not; the call returns false and pins
height 5. -/
theorem C7_difficulty_failure_keeps_hash_witness :
    checkpoints.init.m_points.find 5 = none ∧
    reference_decoders.parse_tpod_from_hex_string sample_hash_a = some sample_digest_a ∧
    reference_decoders.difficulty_from_string "x" = none ∧
    (add_checkpoint reference_decoders checkpoints.init 5 sample_hash_a "x").1 = false ∧
    (add_checkpoint reference_decoders checkpoints.init 5 sample_hash_a "x").2.m_points.find 5 =
      some sample_digest_a :=
  have h := C7_difficulty_failure_keeps_hash reference_decoders checkpoints.init 5
    sample_hash_a "x" sample_digest_a (by decide) (by decide) (by decide) (by decide)
  ⟨by decide, by decide, by decide, h.1, h.2.1⟩

/-- C8: a conflicting difficulty is rejected with no mutation. In a registry
reached from the empty one by `add_checkpoint` calls, at a height whose difficulty
is pinned to `q0`, a call whose difficulty text is non-empty and parses to a value
`q` other than `q0` returns false, whatever its hash text, and leaves `points` and
`difficulty_points` as they were. (The empty difficulty text stands for "no
difficulty": the code does not parse it.) -/
theorem C8_conflicting_difficulty_rejected (D : decoders) (calls : List call) (height : Nat)
    (hash_str difficulty_str : String) (q0 q : difficulty_type)
    (hq0 : (run D checkpoints.init calls).m_difficulty_points.find height = some q0)
    (hne : difficulty_str ≠ "")
    (hq : D.difficulty_from_string difficulty_str = some q)
    (hdiff : q ≠ q0) :
    (add_checkpoint D (run D checkpoints.init calls) height hash_str difficulty_str).1 = false ∧
    (add_checkpoint D (run D checkpoints.init calls) height hash_str difficulty_str).2.m_points =
      (run D checkpoints.init calls).m_points ∧
    (add_checkpoint D (run D checkpoints.init calls) height hash_str
      difficulty_str).2.m_difficulty_points =
        (run D checkpoints.init calls).m_difficulty_points := by
  have hpin : ((run D checkpoints.init calls).m_points.find height).isSome = true :=
    run_difficulty_has_hash D calls checkpoints.init
      (fun k hk => by rw [checkpoints.init, std_map.find_nil] at hk; exact Bool.noConfusion hk)
      height (by rw [hq0]; rfl)
  generalize run D checkpoints.init calls = c at hq0 hpin ⊢
  obtain ⟨p, hp⟩ := Option.isSome_iff_exists.1 hpin
  have he : ¬ difficulty_str.isEmpty = true := fun h => hne ((String.isEmpty_iff _).1 h)
  cases hd : D.parse_tpod_from_hex_string hash_str with
  | none =>
    rw [add_checkpoint_undecoded D c height hash_str difficulty_str hd]
    exact ⟨rfl, rfl, rfl⟩
  | some d =>
    by_cases hdp : d = p
    · subst hdp
      have hq0q : ¬ q0 = q := fun e => hdiff e.symm
      rw [add_checkpoint_accepted D c height hash_str difficulty_str d hd (Or.inr hp),
        if_neg he, hq]
      simp only [hq0, if_neg hq0q]
      exact ⟨trivial, std_map.set_eq_self _ height d hp, trivial⟩
    · rw [add_checkpoint_conflict D c height hash_str difficulty_str d p hd hp hdp]
      exact ⟨rfl, rfl, rfl⟩

/-- Witness for C8: after the call at height 5 with difficulty text `12`, a call
at height 5 with the same hash text and the difficulty text `13` is rejected and
changes nothing. -/
theorem C8_conflicting_difficulty_rejected_witness :
    (run reference_decoders checkpoints.init
      [⟨5, sample_hash_a, "12"⟩]).m_difficulty_points.find 5 = some 12 ∧
    reference_decoders.difficulty_from_string "13" = some 13 ∧
    (add_checkpoint reference_decoders
      (run reference_decoders checkpoints.init [⟨5, sample_hash_a, "12"⟩]) 5 sample_hash_a
      "13").1 = false ∧
    (add_checkpoint reference_decoders
      (run reference_decoders checkpoints.init [⟨5, sample_hash_a, "12"⟩]) 5 sample_hash_a
      "13").2.m_points =
        (run reference_decoders checkpoints.init [⟨5, sample_hash_a, "12"⟩]).m_points ∧
    (add_checkpoint reference_decoders
      (run reference_decoders checkpoints.init [⟨5, sample_hash_a, "12"⟩]) 5 sample_hash_a
      "13").2.m_difficulty_points =
        (run reference_decoders checkpoints.init
          [⟨5, sample_hash_a, "12"⟩]).m_difficulty_points :=
  ⟨by decide, by decide,
    C8_conflicting_difficulty_rejected reference_decoders [⟨5, sample_hash_a, "12"⟩] 5
      sample_hash_a "13" 12 13 (by decide) (by decide) (by decide) (by decide)⟩

/-- For a non-zero `block_height`, `is_alternative_block_allowed` is true exactly
when every pinned height at or below `blockchain_height` is below `block_height`. -/
theorem is_alternative_block_allowed_iff (c : checkpoints)
    (blockchain_height block_height : Nat) (hb : block_height ≠ 0) :
    is_alternative_block_allowed c blockchain_height block_height = true ↔
      ∀ p, (c.m_points.find p).isSome = true → p ≤ blockchain_height → p < block_height := by
  have h0 : ¬ 0 = block_height := fun e => hb e.symm
  rw [is_alternative_block_allowed_eq, if_neg h0,
    allowed_above_iff c.m_points.entries blockchain_height block_height c.m_points.ordered]
  constructor
  · intro hall p hp hle
    obtain ⟨e, he, rfl⟩ := (lookup_isSome_iff p c.m_points.entries).1 hp
    exact hall e he hle
  · intro hall e he hle
    exact hall e.1 ((lookup_isSome_iff e.1 c.m_points.entries).2 ⟨e, he, rfl⟩) hle

/-- C9: `is_alternative_block_allowed` equals its reference definition. For
`block_height = 0` the result is false, in every registry and for every
`blockchain_height`. For `block_height ≠ 0` the result is true exactly when there
is no pinned height `p ≤ blockchain_height`, or `block_height` is strictly greater
than the greatest pinned height `p ≤ blockchain_height`; equivalently, exactly when
no pinned height `p` has `block_height ≤ p ≤ blockchain_height`. With a single pin
at 100 (of any hash), `(150, 100)` is false, `(150, 101)` is true and `(150, 0)` is
false. -/
theorem C9_is_alternative_block_allowed_reference (c : checkpoints)
    (blockchain_height block_height : Nat) :
    is_alternative_block_allowed c blockchain_height 0 = false ∧
    (block_height ≠ 0 →
      (is_alternative_block_allowed c blockchain_height block_height = true ↔
        (¬ ∃ p, (c.m_points.find p).isSome = true ∧ p ≤ blockchain_height) ∨
        ∃ p, (c.m_points.find p).isSome = true ∧ p ≤ blockchain_height ∧
          (∀ q, (c.m_points.find q).isSome = true → q ≤ blockchain_height → q ≤ p) ∧
          p < block_height)) ∧
    (block_height ≠ 0 →
      (is_alternative_block_allowed c blockchain_height block_height = true ↔
        ¬ ∃ p, (c.m_points.find p).isSome = true ∧
          block_height ≤ p ∧ p ≤ blockchain_height)) ∧
    (∀ a : hash,
      is_alternative_block_allowed ⟨std_map.nil.set 100 a, std_map.nil⟩ 150 100 = false ∧
      is_alternative_block_allowed ⟨std_map.nil.set 100 a, std_map.nil⟩ 150 101 = true ∧
      is_alternative_block_allowed ⟨std_map.nil.set 100 a, std_map.nil⟩ 150 0 = false) := by
  refine ⟨rfl, fun hb => ?_, fun hb => ?_, fun a => ⟨rfl, rfl, rfl⟩⟩
  · rw [is_alternative_block_allowed_iff c blockchain_height block_height hb]
    constructor
    · intro hall
      by_cases hex : ∃ p, (c.m_points.find p).isSome = true ∧ p ≤ blockchain_height
      · right
        obtain ⟨p0, hp0, hle0⟩ := hex
        have hspec := Nat.findGreatest_spec
          (P := fun p => (c.m_points.find p).isSome = true ∧ p ≤ blockchain_height)
          hle0 ⟨hp0, hle0⟩
        refine ⟨Nat.findGreatest
          (fun p => (c.m_points.find p).isSome = true ∧ p ≤ blockchain_height)
          blockchain_height, hspec.1, hspec.2, fun q hq hqle => ?_, hall _ hspec.1 hspec.2⟩
        exact Nat.le_findGreatest
          (P := fun p => (c.m_points.find p).isSome = true ∧ p ≤ blockchain_height)
          hqle ⟨hq, hqle⟩
      · exact Or.inl hex
    · rintro (hno | ⟨p, _, _, hmax, hlt⟩)
      · intro q hq hqle
        exact absurd ⟨q, hq, hqle⟩ hno
      · intro q hq hqle
        exact lt_of_le_of_lt (hmax q hq hqle) hlt
  · rw [is_alternative_block_allowed_iff c blockchain_height block_height hb]
    constructor
    · rintro hall ⟨p, hp, h1, h2⟩
      have := hall p hp h2
      omega
    · intro hno p hp hle
      by_contra hlt
      exact hno ⟨p, hp, by omega, hle⟩

/-- C10: `is_in_checkpoint_zone(height)` is true exactly when `points` is non-empty
and `height` is at most the greatest pinned height. When `points` is empty, and so
for the empty registry, it is false for every height, 0 included. With pins at 10
and 50 (of any hashes), heights 50 and 9 are in the zone and 51 is not. -/
theorem C10_is_in_checkpoint_zone_reference (c : checkpoints) (height : Nat) :
    (is_in_checkpoint_zone c height = true ↔
      c.m_points.empty = false ∧
      ∃ M, (c.m_points.find M).isSome = true ∧
        (∀ p, (c.m_points.find p).isSome = true → p ≤ M) ∧ height ≤ M) ∧
    (c.m_points.empty = true → is_in_checkpoint_zone c height = false) ∧
    is_in_checkpoint_zone checkpoints.init height = false ∧
    is_in_checkpoint_zone checkpoints.init 0 = false ∧
    (∀ a b : hash,
      is_in_checkpoint_zone ⟨(std_map.nil.set 10 a).set 50 b, std_map.nil⟩ 50 = true ∧
      is_in_checkpoint_zone ⟨(std_map.nil.set 10 a).set 50 b, std_map.nil⟩ 51 = false ∧
      is_in_checkpoint_zone ⟨(std_map.nil.set 10 a).set 50 b, std_map.nil⟩ 9 = true) := by
  refine ⟨?_, ?_, rfl, rfl, fun a b => ⟨rfl, rfl, rfl⟩⟩
  · unfold is_in_checkpoint_zone std_map.empty std_map.back_key
    cases hx : c.m_points.entries.getLast? with
    | none =>
      have hnil : c.m_points.entries = [] := List.getLast?_eq_none_iff.1 hx
      simp [hnil]
    | some x =>
      have hmem : x ∈ c.m_points.entries := List.mem_of_getLast?_eq_some hx
      have hne : c.m_points.entries.isEmpty = false := by
        cases hl : c.m_points.entries with
        | nil => rw [hl] at hmem; simp at hmem
        | cons y t => rfl
      have hmax := le_of_getLast c.m_points.entries x c.m_points.ordered hx
      simp only [hne, Bool.not_false, Bool.true_and, Option.map_some', decide_eq_true_eq,
        true_and]
      constructor
      · intro hle
        refine ⟨x.1, (lookup_isSome_iff x.1 c.m_points.entries).2 ⟨x, hmem, rfl⟩,
          fun p hp => ?_, hle⟩
        obtain ⟨e, he, rfl⟩ := (lookup_isSome_iff p c.m_points.entries).1 hp
        exact hmax e he
      · rintro ⟨M, hM, _, hle⟩
        obtain ⟨e, he, rfl⟩ := (lookup_isSome_iff M c.m_points.entries).1 hM
        exact le_trans hle (hmax e he)
  · intro he
    unfold is_in_checkpoint_zone
    rw [he]
    rfl

/-- C11: `this.check_for_conflicts(other)` returns true exactly when every height
pinned in both registries is pinned to the same hash in both, and false exactly
when some height is pinned in both with different hashes. A height pinned in only
one of the two does not affect the result: pinning in `other` a height that `this`
does not pin, or in `this` a height that `other` does not pin, leaves the result as
it was. Two registries that pin height 20 return false when the hashes differ and
true when they are equal. -/
theorem C11_check_for_conflicts_reference (c other : checkpoints) :
    (check_for_conflicts c other = true ↔
      ∀ k p q, c.m_points.find k = some p → other.m_points.find k = some q → p = q) ∧
    (check_for_conflicts c other = false ↔
      ∃ k p q, c.m_points.find k = some p ∧ other.m_points.find k = some q ∧ p ≠ q) ∧
    (∀ k v, c.m_points.find k = none →
      check_for_conflicts c ⟨other.m_points.set k v, other.m_difficulty_points⟩ =
        check_for_conflicts c other) ∧
    (∀ k v, other.m_points.find k = none →
      check_for_conflicts ⟨c.m_points.set k v, c.m_difficulty_points⟩ other =
        check_for_conflicts c other) ∧
    (∀ a b : hash, a ≠ b →
      check_for_conflicts ⟨std_map.nil.set 20 a, std_map.nil⟩
        ⟨std_map.nil.set 20 b, std_map.nil⟩ = false) ∧
    (∀ a : hash,
      check_for_conflicts ⟨std_map.nil.set 20 a, std_map.nil⟩
        ⟨std_map.nil.set 20 a, std_map.nil⟩ = true) := by
  refine ⟨check_for_conflicts_iff c other, ?_, ?_, ?_, ?_, ?_⟩
  · rw [← Bool.not_eq_true, check_for_conflicts_iff]
    constructor
    · intro h
      by_contra hno
      apply h
      intro k p q hp hq
      by_contra hne
      exact hno ⟨k, p, q, hp, hq, hne⟩
    · rintro ⟨k, p, q, hp, hq, hne⟩ hall
      exact hne (hall k p q hp hq)
  · intro k v hk
    rw [Bool.eq_iff_iff, check_for_conflicts_iff, check_for_conflicts_iff]
    constructor
    · intro hall j p q hp hq
      refine hall j p q hp ?_
      show (other.m_points.set k v).find j = some q
      rw [std_map.find_set]
      by_cases e : j = k
      · subst e
        rw [hk] at hp
        exact Option.noConfusion hp
      · rw [if_neg e, hq]
    · intro hall j p q hp hq
      have hq' : (other.m_points.set k v).find j = some q := hq
      rw [std_map.find_set] at hq'
      by_cases e : j = k
      · subst e
        rw [hk] at hp
        exact Option.noConfusion hp
      · rw [if_neg e] at hq'
        exact hall j p q hp hq'
  · intro k v hk
    rw [Bool.eq_iff_iff, check_for_conflicts_iff, check_for_conflicts_iff]
    constructor
    · intro hall j p q hp hq
      refine hall j p q ?_ hq
      show (c.m_points.set k v).find j = some p
      rw [std_map.find_set]
      by_cases e : j = k
      · subst e
        rw [hk] at hq
        exact Option.noConfusion hq
      · rw [if_neg e, hp]
    · intro hall j p q hp hq
      have hp' : (c.m_points.set k v).find j = some p := hp
      rw [std_map.find_set] at hp'
      by_cases e : j = k
      · subst e
        rw [hk] at hq
        exact Option.noConfusion hq
      · rw [if_neg e] at hp'
        exact hall j p q hp' hq
  · intro a b hab
    rw [← Bool.not_eq_true, check_for_conflicts_iff]
    intro hall
    exact hab (hall 20 a b rfl rfl)
  · intro a
    rw [check_for_conflicts_iff]
    intro k p q hp hq
    have hp' : (std_map.nil.set 20 a).find k = some p := hp
    have hq' : (std_map.nil.set 20 a).find k = some q := hq
    rw [hp'] at hq'
    exact Option.some.inj hq'

/-- C12: `get_max_height()` returns 0 when `points` is empty; otherwise it returns
a height that is pinned in `points` and is greater than or equal to every pinned
height. -/
theorem C12_get_max_height_reference (c : checkpoints) :
    (c.m_points.empty = true → get_max_height c = 0) ∧
    (c.m_points.empty = false →
      (c.m_points.find (get_max_height c)).isSome = true ∧
      ∀ p, (c.m_points.find p).isSome = true → p ≤ get_max_height c) :=
  ⟨get_max_height_of_empty c,
    fun he => ⟨get_max_height_pinned c he, fun p hp => le_get_max_height c p hp⟩⟩

/-- C16: insert-then-check round trip. When `add_checkpoint(height, hash_text,
difficulty_text)` returns true and the hash text decodes to `d`, then in the
resulting registry `check_block(height, x)` reports `is_a_checkpoint = true` for
every `x` and returns true exactly when `x = d`; at every other height
`check_block` answers as it did before the call. -/
theorem C16_insert_then_check (D : decoders) (c : checkpoints) (height : Nat)
    (hash_str difficulty_str : String) (d : hash)
    (hr : (add_checkpoint D c height hash_str difficulty_str).1 = true)
    (hd : D.parse_tpod_from_hex_string hash_str = some d) :
    (∀ x, (check_block (add_checkpoint D c height hash_str difficulty_str).2 height x).2 =
        true ∧
      ((check_block (add_checkpoint D c height hash_str difficulty_str).2 height x).1 = true ↔
        x = d)) ∧
    (∀ k x, k ≠ height →
      check_block (add_checkpoint D c height hash_str difficulty_str).2 k x =
        check_block c k x) := by
  obtain ⟨d', hd', hp, _⟩ := add_checkpoint_true D c height hash_str difficulty_str hr
  have e : d' = d := by rw [hd] at hd'; exact (Option.some.inj hd').symm
  subst e
  have hpts := add_checkpoint_accepted_points D c height hash_str difficulty_str d' hd hp
  refine ⟨fun x => ?_, fun k x hk => ?_⟩
  · rw [check_block_eq, hpts, std_map.find_set, if_pos rfl]
    refine ⟨rfl, ?_⟩
    show decide (d' = x) = true ↔ x = d'
    rw [decide_eq_true_eq]
    exact eq_comm
  · rw [check_block_eq, check_block_eq, hpts, std_map.find_set, if_neg hk]

/-- Witness for C16: on the empty registry the call at height 5 with
`sample_hash_a` and difficulty text `12` returns true; afterwards `check_block`
at height 5 accepts `sample_digest_a` only. -/
theorem C16_insert_then_check_witness :
    (add_checkpoint reference_decoders checkpoints.init 5 sample_hash_a "12").1 = true ∧
    reference_decoders.parse_tpod_from_hex_string sample_hash_a = some sample_digest_a ∧
    check_block (add_checkpoint reference_decoders checkpoints.init 5 sample_hash_a "12").2 5
      sample_digest_a = (true, true) ∧
    check_block (add_checkpoint reference_decoders checkpoints.init 5 sample_hash_a "12").2 5
      sample_digest_b = (false, true) ∧
    ((∀ x, (check_block (add_checkpoint reference_decoders checkpoints.init 5 sample_hash_a
          "12").2 5 x).2 = true ∧
        ((check_block (add_checkpoint reference_decoders checkpoints.init 5 sample_hash_a
          "12").2 5 x).1 = true ↔ x = sample_digest_a)) ∧
      (∀ k x, k ≠ 5 →
        check_block (add_checkpoint reference_decoders checkpoints.init 5 sample_hash_a
          "12").2 k x = check_block checkpoints.init k x)) :=
  ⟨by decide, by decide, by decide, by decide,
    C16_insert_then_check reference_decoders checkpoints.init 5 sample_hash_a "12"
      sample_digest_a (by decide) (by decide)⟩

/-- C17: every difficulty pin has a hash pin. In every registry reached from the
empty registry by a sequence of `add_checkpoint` calls, whatever they return,
every height present in `difficulty_points` is present in `points`. -/
theorem C17_difficulty_pin_has_hash_pin (D : decoders) (calls : List call) (k : Nat)
    (hk : ((run D checkpoints.init calls).m_difficulty_points.find k).isSome = true) :
    ((run D checkpoints.init calls).m_points.find k).isSome = true :=
  run_difficulty_has_hash D calls checkpoints.init
    (fun j hj => by rw [checkpoints.init, std_map.find_nil] at hj; exact Bool.noConfusion hj)
    k hk

/-- Witness for C17: after a successful call at height 5 with a difficulty and a
call at height 9 that fails on its difficulty text, height 5 has a difficulty pin
and a hash pin. -/
theorem C17_difficulty_pin_has_hash_pin_witness :
    ((run reference_decoders checkpoints.init
      [⟨5, sample_hash_a, "12"⟩, ⟨9, sample_hash_b, "x"⟩]).m_difficulty_points.find
        5).isSome = true ∧
    ((run reference_decoders checkpoints.init
      [⟨5, sample_hash_a, "12"⟩, ⟨9, sample_hash_b, "x"⟩]).m_points.find 5).isSome = true :=
  ⟨by decide,
    C17_difficulty_pin_has_hash_pin reference_decoders
      [⟨5, sample_hash_a, "12"⟩, ⟨9, sample_hash_b, "x"⟩] 5 (by decide)⟩

/-- C18: adding checkpoints never loosens reorg gating. For every registry and
every call of `add_checkpoint`, whatever it returns, a pair
`(blockchain_height, block_height)` for which `is_alternative_block_allowed` is
false before the call is one for which it is false after the call. -/
theorem C18_add_checkpoint_keeps_gating (D : decoders) (c : checkpoints) (height : Nat)
    (hash_str difficulty_str : String) (blockchain_height block_height : Nat)
    (hf : is_alternative_block_allowed c blockchain_height block_height = false) :
    is_alternative_block_allowed (add_checkpoint D c height hash_str difficulty_str).2
      blockchain_height block_height = false := by
  by_cases hb : block_height = 0
  · subst hb
    rfl
  · rw [← Bool.not_eq_true] at hf ⊢
    rw [is_alternative_block_allowed_iff _ blockchain_height block_height hb] at hf ⊢
    intro hall
    apply hf
    intro p hp hle
    exact hall p (add_checkpoint_pinned D c height hash_str difficulty_str p hp) hle

/-- Witness for C18: with height 5 pinned, `(7, 3)` is not allowed; it is still not
allowed after a checkpoint is added at height 10. -/
theorem C18_add_checkpoint_keeps_gating_witness :
    is_alternative_block_allowed sample_registry 7 3 = false ∧
    is_alternative_block_allowed
      (add_checkpoint reference_decoders sample_registry 10 sample_hash_b "").2 7 3 = false :=
  ⟨by decide,
    C18_add_checkpoint_keeps_gating reference_decoders sample_registry 10 sample_hash_b "" 7 3
      (by decide)⟩

/-- C19: reorg gating only bites inside the checkpoint zone. For a non-zero
`block_height`, when `is_alternative_block_allowed(blockchain_height,
block_height)` is false, `is_in_checkpoint_zone(block_height)` is true;
equivalently, a non-zero `block_height` greater than `get_max_height()` is allowed
for every `blockchain_height`. -/
theorem C19_gating_inside_zone (c : checkpoints) (blockchain_height block_height : Nat)
    (hb : block_height ≠ 0) :
    (is_alternative_block_allowed c blockchain_height block_height = false →
      is_in_checkpoint_zone c block_height = true) ∧
    (get_max_height c < block_height →
      ∀ bh, is_alternative_block_allowed c bh block_height = true) := by
  have hsecond : get_max_height c < block_height →
      ∀ bh, is_alternative_block_allowed c bh block_height = true := by
    intro hlt bh
    rw [is_alternative_block_allowed_iff c bh block_height hb]
    intro p hp _
    exact lt_of_le_of_lt (le_get_max_height c p hp) hlt
  refine ⟨fun hf => ?_, hsecond⟩
  rw [← Bool.not_eq_true, is_alternative_block_allowed_iff c blockchain_height block_height hb]
    at hf
  have hex : ∃ p, (c.m_points.find p).isSome = true ∧ p ≤ blockchain_height ∧
      ¬ p < block_height := by
    by_contra hno
    apply hf
    intro p hp hle
    by_contra hlt
    exact hno ⟨p, hp, hle, hlt⟩
  obtain ⟨p, hp, _, hlt⟩ := hex
  rw [is_in_checkpoint_zone_eq, not_empty_of_pinned c p hp]
  have := le_get_max_height c p hp
  simp only [Bool.not_false, Bool.true_and, decide_eq_true_eq]
  omega

/-- Witness for C19: with height 5 pinned, `(7, 3)` is not allowed and height 3 is
in the zone, while `(7, 6)` is allowed. -/
theorem C19_gating_inside_zone_witness :
    is_alternative_block_allowed sample_registry 7 3 = false ∧
    is_in_checkpoint_zone sample_registry 3 = true ∧
    get_max_height sample_registry = 5 ∧
    is_alternative_block_allowed sample_registry 7 6 = true :=
  ⟨by decide,
    (C19_gating_inside_zone sample_registry 7 3 (by decide)).1 (by decide),
    by decide, by decide⟩

/-- C20: `check_for_conflicts` is symmetric and reflexive, and its result does not
depend on the difficulty table of either registry. -/
theorem C20_check_for_conflicts_symmetric (a b : checkpoints) :
    check_for_conflicts a b = check_for_conflicts b a ∧
    check_for_conflicts a a = true ∧
    (∀ da db : std_map difficulty_type,
      check_for_conflicts ⟨a.m_points, da⟩ ⟨b.m_points, db⟩ = check_for_conflicts a b) := by
  refine ⟨?_, ?_, fun da db => ?_⟩
  rotate_left 2
  · rw [Bool.eq_iff_iff, check_for_conflicts_iff, check_for_conflicts_iff]
  · rw [Bool.eq_iff_iff, check_for_conflicts_iff, check_for_conflicts_iff]
    constructor
    · intro hall k p q hp hq
      exact (hall k q p hq hp).symm
    · intro hall k p q hp hq
      exact (hall k q p hq hp).symm
  · rw [check_for_conflicts_iff]
    intro k p q hp hq
    rw [hp] at hq
    exact Option.some.inj hq

/-- C13: `init_default_checkpoints` on the empty registry. For each network, when
the decoders accept the listed hash and difficulty texts, the call returns true
and leaves `points` non-empty; the pinned heights are exactly the listed ones, each
pinned to the digest of its listed hash text and each with a difficulty pin, the
decoded listed difficulty, at the same height. The listed heights are
`0, 50000, 100000` for the test network, `0, 80000, 200000` for the staging network
and the 17 heights from 1 to 1470000 for the primary network, in strictly ascending
order. -/
theorem C13_init_default_checkpoints (abort_on_failure : Bool) (D : decoders)
    (nettype : network_type)
    (hD : ∀ t ∈ default_checkpoints nettype,
      (D.parse_tpod_from_hex_string t.2.1).isSome = true ∧
      (D.difficulty_from_string t.2.2).isSome = true) :
    (init_default_checkpoints abort_on_failure D checkpoints.init nettype).1 = true ∧
    (init_default_checkpoints abort_on_failure D checkpoints.init nettype).2.m_points.empty =
      false ∧
    (∀ k, ((init_default_checkpoints abort_on_failure D checkpoints.init
        nettype).2.m_points.find k).isSome = true ↔
      k ∈ (default_checkpoints nettype).map Prod.fst) ∧
    (∀ k, ((init_default_checkpoints abort_on_failure D checkpoints.init
        nettype).2.m_difficulty_points.find k).isSome = true ↔
      k ∈ (default_checkpoints nettype).map Prod.fst) ∧
    (∀ t ∈ default_checkpoints nettype,
      (init_default_checkpoints abort_on_failure D checkpoints.init
        nettype).2.m_points.find t.1 = D.parse_tpod_from_hex_string t.2.1 ∧
      (init_default_checkpoints abort_on_failure D checkpoints.init
        nettype).2.m_difficulty_points.find t.1 = D.difficulty_from_string t.2.2) ∧
    (default_checkpoints network_type.TESTNET).map Prod.fst = [0, 50000, 100000] ∧
    (default_checkpoints network_type.STAGENET).map Prod.fst = [0, 80000, 200000] ∧
    (default_checkpoints network_type.MAINNET).map Prod.fst =
      [1, 100, 1000, 10000, 15000, 175500, 450000, 540000, 592001, 798358, 871000, 959800,
        1026000, 1133000, 1157000, 1260000, 1470000] ∧
    (∀ t ∈ default_checkpoints nettype, t.2.1.length = 64) ∧
    (default_checkpoints nettype).Pairwise (fun a b => a.1 < b.1) := by
  obtain ⟨hasc, hne⟩ := default_checkpoints_shape nettype
  obtain ⟨r1, r2, r3⟩ := add_checkpoint_lines_fresh abort_on_failure D
    (default_checkpoints nettype) checkpoints.init hasc
    (fun t ht => ⟨(hD t ht).1, (hD t ht).2, hne t ht⟩)
    (fun t _ => ⟨rfl, rfl⟩)
  have hfind : ∀ t ∈ default_checkpoints nettype,
      lookup t.1 (default_checkpoints nettype) = some t.2 :=
    fun t ht => lookup_of_mem t.1 t.2 (default_checkpoints nettype) hasc ht
  have hpin : ∀ k, ((init_default_checkpoints abort_on_failure D checkpoints.init
      nettype).2.m_points.find k).isSome = true ↔
      k ∈ (default_checkpoints nettype).map Prod.fst := by
    intro k
    unfold init_default_checkpoints
    rw [r2 k, ← lookup_isSome_iff_mem_keys]
    cases hl : lookup k (default_checkpoints nettype) with
    | none => simp [checkpoints.init, std_map.find_nil]
    | some t =>
      have hm := lookup_mem k t _ hl
      simp only [Option.isSome_some, iff_true]
      exact (hD (k, t) hm).1
  refine ⟨r1, ?_, hpin, ?_, ?_, by decide, by decide, by decide, ?_, hasc⟩
  · have hex : ∃ t, t ∈ default_checkpoints nettype := by
      cases nettype <;> exact ⟨_, List.mem_cons_self _ _⟩
    obtain ⟨t, ht⟩ := hex
    exact not_empty_of_pinned _ t.1 ((hpin t.1).2 (List.mem_map_of_mem Prod.fst ht))
  · intro k
    unfold init_default_checkpoints
    rw [r3 k, ← lookup_isSome_iff_mem_keys]
    cases hl : lookup k (default_checkpoints nettype) with
    | none => simp [checkpoints.init, std_map.find_nil]
    | some t =>
      have hm := lookup_mem k t _ hl
      simp only [Option.isSome_some, iff_true]
      exact (hD (k, t) hm).2
  · intro t ht
    unfold init_default_checkpoints
    rw [r2 t.1, r3 t.1, hfind t ht]
    exact ⟨rfl, rfl⟩
  · cases nettype <;> decide

/-- Witness for C13: the reference decoders accept every listed text of the three
networks; on each network the call returns true and pins the listed heights. -/
theorem C13_init_default_checkpoints_witness :
    (∀ n : network_type, ∀ t ∈ default_checkpoints n,
      (reference_decoders.parse_tpod_from_hex_string t.2.1).isSome = true ∧
      (reference_decoders.difficulty_from_string t.2.2).isSome = true) ∧
    (∀ n : network_type,
      (init_default_checkpoints true reference_decoders checkpoints.init n).1 = true) ∧
    (init_default_checkpoints true reference_decoders checkpoints.init
      network_type.TESTNET).2.m_points.entries.map Prod.fst = [0, 50000, 100000] ∧
    (init_default_checkpoints true reference_decoders checkpoints.init
      network_type.TESTNET).2.m_difficulty_points.entries =
        [(0, 1), (50000, 947184082), (100000, 1436381728)] :=
  have h : ∀ n : network_type, ∀ t ∈ default_checkpoints n,
      (reference_decoders.parse_tpod_from_hex_string t.2.1).isSome = true ∧
      (reference_decoders.difficulty_from_string t.2.2).isSome = true := by
    intro n
    cases n <;> decide
  ⟨h, fun n => (C13_init_default_checkpoints true reference_decoders n (h n)).1,
    by decide, by decide⟩

/-- C14: the local-file loader never touches the existing frontier. With
`M = get_max_height()` taken when loading begins, after
`load_checkpoints_from_json`, whatever it returns, every height `h ≤ M` reads in
`points` as before (unpinned stays unpinned, pinned keeps its hash) and
`difficulty_points` is unchanged. For a decoded list of lines, `add_checkpoint` is
called only for lines above `M`, the registry afterwards is the result of these
calls, and, whenever the loader gets through the list (the macro does not abort, or
the loader returns true), it is called for every line above `M` in file order: the
threshold is the maximum at the start, not a running maximum, so a line at `M + 1`
listed after a line at `M + 5` is still passed to `add_checkpoint`. Lines at
`M, M + 1, M + 5` lead to calls only for `M + 1` and `M + 5`. -/
theorem C14_loader_keeps_frontier (abort_on_failure : Bool) (D : decoders) (c : checkpoints)
    (file_exists : Bool) (loaded : Option t_hash_json) :
    (load_checkpoints_from_json abort_on_failure D c file_exists loaded).2.m_difficulty_points =
      c.m_difficulty_points ∧
    (∀ h, h ≤ get_max_height c →
      (load_checkpoints_from_json abort_on_failure D c file_exists loaded).2.m_points.find h =
        c.m_points.find h) ∧
    (∀ hashes : t_hash_json,
      (∀ x ∈ load_checkpoints_attempts abort_on_failure D (get_max_height c) c hashes.hashlines,
        get_max_height c < x.height ∧ x ∈ hashes.hashlines) ∧
      (load_checkpoints_from_json abort_on_failure D c true (some hashes)).2 =
        run D c ((load_checkpoints_attempts abort_on_failure D (get_max_height c) c
          hashes.hashlines).map (fun x => ⟨x.height, x.hash, ""⟩)) ∧
      ((abort_on_failure = false ∨
          (load_checkpoints_from_json abort_on_failure D c true (some hashes)).1 = true) →
        load_checkpoints_attempts abort_on_failure D (get_max_height c) c hashes.hashlines =
          hashes.hashlines.filter (fun x => decide (get_max_height c < x.height)))) ∧
    (∀ a b : String,
      (abort_on_failure = false ∨
          (add_checkpoint D c (get_max_height c + 5) a "").1 = true) →
        load_checkpoints_attempts abort_on_failure D (get_max_height c) c
          [⟨get_max_height c + 5, a⟩, ⟨get_max_height c + 1, b⟩] =
            [⟨get_max_height c + 5, a⟩, ⟨get_max_height c + 1, b⟩]) ∧
    (∀ x y z : String,
      (∀ e ∈ load_checkpoints_attempts abort_on_failure D (get_max_height c) c
          [⟨get_max_height c, x⟩, ⟨get_max_height c + 1, y⟩, ⟨get_max_height c + 5, z⟩],
        e = ⟨get_max_height c + 1, y⟩ ∨ e = ⟨get_max_height c + 5, z⟩) ∧
      ((abort_on_failure = false ∨
          (add_checkpoint D c (get_max_height c + 1) y "").1 = true) →
        load_checkpoints_attempts abort_on_failure D (get_max_height c) c
          [⟨get_max_height c, x⟩, ⟨get_max_height c + 1, y⟩, ⟨get_max_height c + 5, z⟩] =
            [⟨get_max_height c + 1, y⟩, ⟨get_max_height c + 5, z⟩])) := by
  have hnil : ∀ (M : Nat) (s : checkpoints),
      load_checkpoints_attempts abort_on_failure D M s [] = [] := fun _ _ => rfl
  have hlast : ∀ (M : Nat) (s : checkpoints) (it : t_hashline), M < it.height →
      load_checkpoints_attempts abort_on_failure D M s [it] = [it] := by
    intro M s it hlt
    have h1 : ¬ it.height ≤ M := by omega
    rw [load_checkpoints_attempts_cons, if_neg h1, hnil]
    split_ifs <;> rfl
  have hgo : ∀ (M : Nat) (s : checkpoints) (it : t_hashline) (rest : List t_hashline),
      M < it.height →
      (abort_on_failure = false ∨ (add_checkpoint D s it.height it.hash "").1 = true) →
      load_checkpoints_attempts abort_on_failure D M s (it :: rest) =
        it :: load_checkpoints_attempts abort_on_failure D M
          (add_checkpoint D s it.height it.hash "").2 rest := by
    intro M s it rest hlt hok
    have h1 : ¬ it.height ≤ M := by omega
    have h2 : ¬ (abort_on_failure && !(add_checkpoint D s it.height it.hash "").1) = true := by
      rcases hok with h | h <;> simp [h]
    rw [load_checkpoints_attempts_cons, if_neg h1, if_neg h2]
  refine ⟨?_, ?_, fun hashes => ⟨?_, ?_, ?_⟩, fun a b hok => ?_, fun x y z => ⟨?_, fun hok => ?_⟩⟩
  · unfold load_checkpoints_from_json
    cases file_exists with
    | false => rfl
    | true =>
      cases loaded with
      | none => rfl
      | some hashes =>
        exact (load_checkpoints_loop_frame abort_on_failure D (get_max_height c)
          hashes.hashlines c).1
  · intro h hh
    unfold load_checkpoints_from_json
    cases file_exists with
    | false => rfl
    | true =>
      cases loaded with
      | none => rfl
      | some hashes =>
        exact (load_checkpoints_loop_frame abort_on_failure D (get_max_height c)
          hashes.hashlines c).2 h hh
  · exact (load_checkpoints_attempts_spec abort_on_failure D (get_max_height c)
      hashes.hashlines c).1
  · exact (load_checkpoints_attempts_spec abort_on_failure D (get_max_height c)
      hashes.hashlines c).2
  · intro hok
    exact load_checkpoints_attempts_all abort_on_failure D (get_max_height c)
      hashes.hashlines c hok
  · rw [hgo (get_max_height c) c ⟨get_max_height c + 5, a⟩ _ (by simp) hok,
      hlast _ _ ⟨get_max_height c + 1, b⟩ (by simp)]
  · intro e he
    obtain ⟨h1, h2⟩ := (load_checkpoints_attempts_spec abort_on_failure D (get_max_height c)
      [⟨get_max_height c, x⟩, ⟨get_max_height c + 1, y⟩, ⟨get_max_height c + 5, z⟩] c).1 e he
    simp only [List.mem_cons, List.mem_singleton, List.not_mem_nil, or_false] at h2
    rcases h2 with rfl | h2
    · simp at h1
    · exact h2
  · rw [load_checkpoints_attempts_cons, if_pos (le_refl _),
      hgo (get_max_height c) c ⟨get_max_height c + 1, y⟩ _ (by simp) hok,
      hlast _ _ ⟨get_max_height c + 5, z⟩ (by simp)]

end cryptonote
